import Mathlib

/-!
# tkey-luks client: device protocol session

A shallow embedding of `client/main.go`.  Go byte slices are lists of bytes,
the serial transport `tkeyclient.TillitisKey` is an explicit state holding a
script of outcomes and a log of what the client did, and every Go function
that touches the transport returns its result together with the new
transport state.  Calls to the logger `le` are not part of the model.
-/

namespace TKeyLuks

/-- A byte (`byte`, `uint8`). -/
abbrev Byte := Fin 256

/-! ## Constants (`main.go` lines 25-47, 116-120) -/

def cmdSetChallengeCode : Byte := 0x03
def rspSetChallengeCode : Byte := 0x04
def cmdLoadChallengeCode : Byte := 0x05
def rspLoadChallengeCode : Byte := 0x06
def cmdDeriveKeyCode : Byte := 0x07
def rspDeriveKeyCode : Byte := 0x08
def cmdGetNameVerCode : Byte := 0x09
def rspGetNameVerCode : Byte := 0x0a

def statusOK : Byte := 0
def statusBad : Byte := 1

/-- The string constant "tk1 " as bytes. -/
def nameApp0 : List Byte := [0x74, 0x6b, 0x31, 0x20]
/-- The string constant "luks" as bytes. -/
def nameApp1 : List Byte := [0x6c, 0x75, 0x6b, 0x73]
def wantVer : Nat := 1

def maxChallengeSize : Nat := 256
def chunkSize : Nat := 127

def defaultPBKDF2Iterations : Int := 100000
def ussLength : Nat := 32

/-! ## The part of `tkeyclient` the client uses -/

/-- Frame length classes of `tkeyclient.CmdLen`. -/
inductive CmdLen where
  | CmdLen1
  | CmdLen4
  | CmdLen32
  | CmdLen128
  deriving DecidableEq, Repr

/-- Numeric value of a `CmdLen` (the two low bits of the frame header). -/
def CmdLen.toNat : CmdLen → Nat
  | .CmdLen1 => 0
  | .CmdLen4 => 1
  | .CmdLen32 => 2
  | .CmdLen128 => 3

/-- Number of bytes after the header byte: `CmdLen.Bytelen`. -/
def CmdLen.Bytelen : CmdLen → Nat
  | .CmdLen1 => 1
  | .CmdLen4 => 4
  | .CmdLen32 => 32
  | .CmdLen128 => 128

/-- Endpoint `tkeyclient.DestApp`. -/
def DestApp : Nat := 3

/-- A value implementing the `tkeyclient.Cmd` interface: `Code`, `CmdLen`, `Endpoint`. -/
structure Cmd where
  Code : Byte
  CmdLen : CmdLen
  Endpoint : Nat
  deriving DecidableEq, Repr

def cmdSetChallenge : Cmd := ⟨cmdSetChallengeCode, .CmdLen32, DestApp⟩
def rspSetChallenge : Cmd := ⟨rspSetChallengeCode, .CmdLen4, DestApp⟩
def cmdLoadChallenge : Cmd := ⟨cmdLoadChallengeCode, .CmdLen128, DestApp⟩
def rspLoadChallenge : Cmd := ⟨rspLoadChallengeCode, .CmdLen4, DestApp⟩
def cmdDeriveKey : Cmd := ⟨cmdDeriveKeyCode, .CmdLen1, DestApp⟩
def rspDeriveKey : Cmd := ⟨rspDeriveKeyCode, .CmdLen128, DestApp⟩
def cmdGetNameVer : Cmd := ⟨cmdGetNameVerCode, .CmdLen1, DestApp⟩
def rspGetNameVer : Cmd := ⟨rspGetNameVerCode, .CmdLen32, DestApp⟩

/-- Conversion `byte(n)` of a non-negative integer. -/
def byteOfNat (n : Nat) : Byte := Fin.ofNat (n % 256)

/-- Library function `tkeyclient.NewFrameBuf`: a zero-filled buffer of one header byte plus
`CmdLen.Bytelen` bytes, with the header in `tx[0]` and the command code in `tx[1]`.
It refuses a frame id or an endpoint above 3. -/
def NewFrameBuf (cmd : Cmd) (id : Nat) : Option (List Byte) :=
  if id > 3 then none
  else if cmd.Endpoint > 3 then none
  else if cmd.CmdLen.toNat > 3 then none
  else some (byteOfNat ((id <<< 5) ||| (cmd.Endpoint <<< 3) ||| cmd.CmdLen.toNat)
              :: cmd.Code :: List.replicate (cmd.CmdLen.Bytelen - 1) 0)

/-- The connection `tkeyclient.TillitisKey` as a scripted transport.

* `writeErr i` tells whether the `i`-th call of `Write` (counted from 0) reports an error;
* `response i` is the outcome of the `i`-th call of `ReadFrame`: `none` for an error
  (read failure, timeout, malformed header), `some rx` for the frame handed back;
* `written` lists the frames passed to `Write`, in call order;
* `readLog` lists, for every call of `ReadFrame` in call order, the read timeout (seconds)
  in force when it was made;
* `readTimeout` is the current read timeout in seconds, 0 meaning none. -/
structure TillitisKey where
  writeErr : Nat → Bool
  response : Nat → Option (List Byte)
  written : List (List Byte)
  readLog : List Nat
  readTimeout : Nat
  closed : Bool

/-- Method `Write`: hands the frame to the transport; `true` means no error. -/
def TillitisKey.Write (tk : TillitisKey) (tx : List Byte) : Bool × TillitisKey :=
  (!(tk.writeErr tk.written.length), { tk with written := tk.written ++ [tx] })

/-- Method `ReadFrame`: the next scripted outcome.  The expected response command and frame
id, which the library checks against the header of what it read, are folded into the script. -/
def TillitisKey.ReadFrame (tk : TillitisKey) (_expectedResp : Cmd) (_id : Nat) :
    Option (List Byte) × TillitisKey :=
  (tk.response tk.readLog.length, { tk with readLog := tk.readLog ++ [tk.readTimeout] })

/-- Method `SetReadTimeoutNoErr`. -/
def TillitisKey.SetReadTimeoutNoErr (tk : TillitisKey) (seconds : Nat) : TillitisKey :=
  { tk with readTimeout := seconds }

/-- Method `Close`. -/
def TillitisKey.Close (tk : TillitisKey) : TillitisKey :=
  { tk with closed := true }

/-! ## Errors

One constructor for each `fmt.Errorf` of the file; the wrapped transport error is dropped. -/

inductive Error where
  /-- "NewFrameBuf: %w" -/
  | newFrameBuf
  /-- "Write: %w" -/
  | write
  /-- "ReadFrame: %w" -/
  | readFrame
  /-- "response too short: %d bytes" -/
  | responseTooShort (len : Nat)
  /-- "response too short: %d bytes (expected %d)" -/
  | responseTooShortExpected (len expected : Nat)
  /-- "unexpected app name: %q %q" -/
  | unexpectedAppName (name0 name1 : List Byte)
  /-- "unexpected app version: %d (want %d)" -/
  | unexpectedAppVersion (version want : Nat)
  /-- "invalid challenge size: %d (must be 1-%d)" -/
  | invalidChallengeSize (size : Int) (max : Nat)
  /-- "device returned error status" -/
  | deviceErrorStatus
  /-- "invalid challenge length: %d" -/
  | invalidChallengeLength (len : Nat)
  /-- "password cannot be empty" -/
  | passwordEmpty
  /-- "salt cannot be empty" -/
  | saltEmpty
  /-- "iterations too low (minimum 10000)" -/
  | iterationsTooLow
  /-- "derived USS wrong length: %d" -/
  | derivedUSSWrongLength (len : Nat)
  /-- "could not determine system salt" -/
  | noSystemSalt
  /-- "cryptsetup failed: %w\nOutput: %s" -/
  | cryptsetupFailed
  deriving DecidableEq, Repr

deriving instance DecidableEq for Except

/-! ## Slices -/

/-- Slice expression `s[lo:hi]` for `lo ≤ hi ≤ len(s)`. -/
def slice (s : List Byte) (lo hi : Nat) : List Byte := (s.drop lo).take (hi - lo)

/-- Builtin `copy(dst, src)`: the new contents of `dst`, whose first
`min(len(dst), len(src))` bytes are replaced by those of `src`. -/
def copy (dst src : List Byte) : List Byte :=
  src.take dst.length ++ dst.drop (min dst.length src.length)

/-- Statement `copy(tx[off:], src)`: the new contents of `tx`. -/
def copyAt (tx : List Byte) (off : Nat) (src : List Byte) : List Byte :=
  tx.take off ++ copy (tx.drop off) src

/-- Conversion `uint32(n)`. -/
def u32 (n : Nat) : Nat := n % 2 ^ 32

/-! ## Protocol operations (`main.go` lines 168-350) -/

/-- Method `GetAppNameVersion` (lines 169-218).  The deferred
`SetReadTimeoutNoErr(0)` runs on every return after the `defer` statement. -/
def GetAppNameVersion (tk : TillitisKey) : Except Error Unit × TillitisKey :=
  let id := 2
  match NewFrameBuf cmdGetNameVer id with
  | none => (.error .newFrameBuf, tk)
  | some tx =>
    let w := tk.Write tx
    if w.1 = false then (.error .write, w.2)
    else
      let tk1 := w.2.SetReadTimeoutNoErr 2
      let r := tk1.ReadFrame rspGetNameVer id
      let tk2 := r.2.SetReadTimeoutNoErr 0
      match r.1 with
      | none => (.error .readFrame, tk2)
      | some rx =>
        if rx.length < 2 + 12 then (.error (.responseTooShort rx.length), tk2)
        else
          let name0 := slice rx 2 6
          let name1 := slice rx 6 10
          let version := u32 (u32 (u32 (u32 (rx.getD 10 0).val + u32 ((rx.getD 11 0).val <<< 8))
            + u32 ((rx.getD 12 0).val <<< 16)) + u32 ((rx.getD 13 0).val <<< 24))
          if name0 ≠ nameApp0 ∨ name1 ≠ nameApp1 then
            (.error (.unexpectedAppName name0 name1), tk2)
          else if version ≠ wantVer then
            (.error (.unexpectedAppVersion version wantVer), tk2)
          else (.ok (), tk2)

/-- Conversion `byte(x)` of an `int`. -/
def byteOfInt (x : Int) : Byte := Fin.ofNat (x % 256).toNat

/-- Assignment `tx[i] = b`. -/
def setByte (tx : List Byte) (i : Nat) (b : Byte) : List Byte := tx.set i b

/-- Method `SetChallenge` (lines 221-259). -/
def SetChallenge (tk : TillitisKey) (size : Int) : Except Error Unit × TillitisKey :=
  if size ≤ 0 ∨ size > maxChallengeSize then
    (.error (.invalidChallengeSize size maxChallengeSize), tk)
  else
    let id := 2
    match NewFrameBuf cmdSetChallenge id with
    | none => (.error .newFrameBuf, tk)
    | some tx0 =>
      let tx1 := setByte tx0 2 (byteOfInt size)
      let tx2 := setByte tx1 3 (byteOfInt (size >>> 8))
      let tx3 := setByte tx2 4 (byteOfInt (size >>> 16))
      let tx := setByte tx3 5 (byteOfInt (size >>> 24))
      let w := tk.Write tx
      if w.1 = false then (.error .write, w.2)
      else
        let r := w.2.ReadFrame rspSetChallenge id
        match r.1 with
        | none => (.error .readFrame, r.2)
        | some rx =>
          if rx.length < 3 ∨ rx.getD 2 0 ≠ statusOK then (.error .deviceErrorStatus, r.2)
          else (.ok (), r.2)

/-- Result of one pass through the body of the loop of `LoadChallenge` (lines 271-307):
either the function returns with an error, or the loop goes on with the new offset. -/
def loadChunk (challenge : List Byte) (offset : Nat) (tk : TillitisKey) :
    Except Error Nat × TillitisKey :=
  let id := 2
  let remaining := challenge.length - offset
  let chunk := if remaining < chunkSize then remaining else chunkSize
  match NewFrameBuf cmdLoadChallenge id with
  | none => (.error .newFrameBuf, tk)
  | some tx0 =>
    let tx := copyAt tx0 2 (slice challenge offset (offset + chunk))
    let w := tk.Write tx
    if w.1 = false then (.error .write, w.2)
    else
      let r := w.2.ReadFrame rspLoadChallenge id
      match r.1 with
      | none => (.error .readFrame, r.2)
      | some rx =>
        if rx.length < 3 ∨ rx.getD 2 0 ≠ statusOK then (.error .deviceErrorStatus, r.2)
        else (.ok (offset + chunk), r.2)

/-- The loop `for offset < len(challenge)` of `LoadChallenge` (lines 270-308), run for at
most `fuel` passes; `none` is returned when the passes are used up before the loop ends. -/
def loadLoop (challenge : List Byte) : Nat → Nat → TillitisKey →
    Option (Except Error Unit × TillitisKey)
  | 0, offset, tk => if offset < challenge.length then none else some (.ok (), tk)
  | fuel + 1, offset, tk =>
    if offset < challenge.length then
      match loadChunk challenge offset tk with
      | (.error e, tk1) => some (.error e, tk1)
      | (.ok offset1, tk1) => loadLoop challenge fuel offset1 tk1
    else some (.ok (), tk)

/-- Method `LoadChallenge` (lines 262-311).  Every pass of the loop moves the offset forward
by at least one byte, so `len(challenge)` passes are enough (`loadLoop_isSome`); the
`none` branch below is never taken. -/
def LoadChallenge (tk : TillitisKey) (challenge : List Byte) : Except Error Unit × TillitisKey :=
  if challenge.length = 0 ∨ challenge.length > maxChallengeSize then
    (.error (.invalidChallengeLength challenge.length), tk)
  else
    match loadLoop challenge challenge.length 0 tk with
    | some res => res
    | none => (.ok (), tk)

/-- Method `DeriveKey` (lines 315-350). -/
def DeriveKey (tk : TillitisKey) : Except Error (List Byte) × TillitisKey :=
  let id := 2
  match NewFrameBuf cmdDeriveKey id with
  | none => (.error .newFrameBuf, tk)
  | some tx =>
    let w := tk.Write tx
    if w.1 = false then (.error .write, w.2)
    else
      let r := w.2.ReadFrame rspDeriveKey id
      match r.1 with
      | none => (.error .readFrame, r.2)
      | some rx =>
        if rx.length < 2 + 1 + 64 then
          (.error (.responseTooShortExpected rx.length (2 + 1 + 64)), r.2)
        else if rx.getD 2 0 ≠ statusOK then (.error .deviceErrorStatus, r.2)
        else
          let key := copy (List.replicate 64 0) (slice rx 3 (3 + 64))
          (.ok key, r.2)

/-! ## USS derivation and salt discovery (`main.go` lines 454-514) -/

/-- Bytes of a string constant made of ASCII characters. -/
def bytesOfASCII (s : String) : List Byte := s.toList.map (fun c => byteOfNat c.toNat)

/-- What `getSystemSalt` asks of the operating system: `readFile path` is the outcome of
`os.ReadFile(path)` and `hostname` that of `os.Hostname()`, `none` standing for an error. -/
structure SaltEnv where
  readFile : String → Option (List Byte)
  hostname : Option (List Byte)

/-- The placeholder product UUID that `getSystemSalt` refuses. -/
def zeroUUID : List Byte := bytesOfASCII "00000000-0000-0000-0000-000000000000"

/-- Function `getSystemSalt` (lines 456-492).  The library function `strings.TrimSpace` is
the parameter `TrimSpace`. -/
def getSystemSalt (TrimSpace : List Byte → List Byte) (env : SaltEnv) :
    Except Error (List Byte) :=
  let tryDMI : Except Error (List Byte) :=
    let tryHostname : Except Error (List Byte) :=
      match env.hostname with
      | some hostname =>
        if hostname ≠ [] ∧ hostname ≠ bytesOfASCII "localhost" then .ok hostname
        else .error .noSystemSalt
      | none => .error .noSystemSalt
    match env.readFile "/sys/class/dmi/id/product_uuid" with
    | some data =>
      let salt := TrimSpace data
      if salt ≠ [] ∧ salt ≠ zeroUUID then .ok salt else tryHostname
    | none => tryHostname
  let tryDbus : Except Error (List Byte) :=
    match env.readFile "/var/lib/dbus/machine-id" with
    | some data =>
      let salt := TrimSpace data
      if salt ≠ [] then .ok salt else tryDMI
    | none => tryDMI
  match env.readFile "/etc/machine-id" with
  | some data =>
    let salt := TrimSpace data
    if salt ≠ [] then .ok salt else tryDbus
  | none => tryDbus

/-- One call of `pbkdf2.Key(password, salt, iter, keyLen, sha256.New)`. -/
structure KdfCall where
  password : List Byte
  salt : List Byte
  iter : Int
  keyLen : Nat
  deriving DecidableEq, Repr

/-- Function `deriveUSSFromPassword` (lines 495-514).  The library function `pbkdf2.Key`
with SHA-256 is the parameter `kdf`; the second component of the result lists the calls
made to it. -/
def deriveUSSFromPassword (kdf : KdfCall → List Byte) (password : List Byte)
    (salt : List Byte) (iterations : Int) : Except Error (List Byte) × List KdfCall :=
  if password = [] then (.error .passwordEmpty, [])
  else if salt.length = 0 then (.error .saltEmpty, [])
  else if iterations < 10000 then (.error .iterationsTooLow, [])
  else
    let call : KdfCall := ⟨password, salt, iterations, ussLength⟩
    let uss := kdf call
    if uss.length ≠ ussLength then (.error (.derivedUSSWrongLength uss.length), [call])
    else (.ok uss, [call])

/-! ## The session and the key outputs of `main` (`main.go` lines 776-869) -/

/-- The flags of `main` that are read after the connection is set up. -/
structure Config where
  outputPath : String
  saveKeyPath : String
  luksImage : String
  mapperName : String
  verbose : Bool

/-- Outcomes of the operating-system calls made after the key is derived: whether the write
to standard output, `os.WriteFile` on a path, `os.CreateTemp`, the write to the temporary
file and the `cryptsetup` command report an error; `tmpWritten` is the number of key bytes
that reached the temporary file when its write fails. -/
structure OS where
  stdoutWriteErr : Bool
  writeFileErr : String → Bool
  createTempErr : Bool
  tmpWriteErr : Bool
  tmpWritten : Nat
  cryptsetupErr : Bool

/-- One run of `sudo cryptsetup luksOpen luksImage mapperName --key-file keyfile`, with the
contents of the key file at that moment. -/
structure CryptsetupCall where
  keyfile : Option (List Byte)
  luksImage : String
  mapperName : String
  deriving DecidableEq, Repr

/-- What `main` acts on: the connection, standard output, the files written with
`os.WriteFile`, the temporary key file (`none` when it does not exist, else its contents)
and the runs of `cryptsetup`. -/
structure World where
  tk : TillitisKey
  stdout : List Byte
  files : List (String × List Byte)
  tmpKey : Option (List Byte)
  cryptsetup : List CryptsetupCall

/-- The calls of `le.Fatalf` in lines 776-869. -/
inductive Fatal where
  /-- "Failed to verify app: %v" -/
  | verifyApp (e : Error)
  /-- "Failed to set challenge: %v" -/
  | setChallenge (e : Error)
  /-- "Failed to load challenge: %v" -/
  | loadChallenge (e : Error)
  /-- "Failed to derive key: %v" -/
  | deriveKey (e : Error)
  /-- "Failed to write key to stdout: %v" -/
  | writeStdout
  /-- "Failed to write key to file: %v" -/
  | writeKeyFile
  /-- "Failed to save key: %v" -/
  | saveKey
  /-- "Failed to create temp key file: %v" -/
  | createTemp
  /-- "Failed to write key to temp file: %v" -/
  | writeTemp
  /-- "Failed to unlock LUKS: %v" -/
  | unlockLUKS (e : Error)
  deriving DecidableEq, Repr

/-- How `main` ends.  `returned`: `main` returns, and its deferred calls have run.
`fatal`: `le.Fatalf` was called, which logs and calls `os.Exit(1)`; the process ends at
once and deferred calls do not run. -/
inductive Exit where
  | returned
  | fatal (f : Fatal)
  deriving DecidableEq, Repr

/-- Function `UnlockLUKS` (lines 353-363). -/
def UnlockLUKS (os : OS) (w : World) (luksImage mapperName : String) :
    Except Error Unit × World :=
  let w1 := { w with cryptsetup := w.cryptsetup ++ [⟨w.tmpKey, luksImage, mapperName⟩] }
  if os.cryptsetupErr then (.error .cryptsetupFailed, w1) else (.ok (), w1)

/-- The deferred calls of `main`, run when `main` returns, last registered first:
`os.Remove(tmpKey.Name())` (line 855) when it was registered, then `tkey.Close()`
(line 759). -/
def runDeferred (removeTmp : Bool) (w : World) : World :=
  let w1 := if removeTmp then { w with tmpKey := none } else w
  { w1 with tk := w1.tk.Close }

/-- Lines 849-868 of `main`, entered when `luksImage != ""`: the volume-unlock step, up to
the end of `main`. -/
def unlockStep (cfg : Config) (os : OS) (key : List Byte) (w : World) : Exit × World :=
  if os.createTempErr then (.fatal .createTemp, w)
  else
    let w1 := { w with tmpKey := some [] }
    if os.tmpWriteErr then (.fatal .writeTemp, { w1 with tmpKey := some (key.take os.tmpWritten) })
    else
      let w2 := { w1 with tmpKey := some key }
      let u := UnlockLUKS os w2 cfg.luksImage cfg.mapperName
      match u.1 with
      | .error e => (.fatal (.unlockLUKS e), u.2)
      | .ok _ => (.returned, runDeferred true u.2)

/-- Lines 807-869 of `main`: what is done with the derived key. -/
def outputKey (cfg : Config) (os : OS) (key : List Byte) (w : World) : Exit × World :=
  let saveAndUnlock (w : World) : Exit × World :=
    let unlock (w : World) : Exit × World :=
      if cfg.luksImage ≠ "" then unlockStep cfg os key w else (.returned, runDeferred false w)
    if cfg.saveKeyPath ≠ "" then
      if os.writeFileErr cfg.saveKeyPath then (.fatal .saveKey, w)
      else
        let w1 := { w with files := w.files ++ [(cfg.saveKeyPath, key)] }
        if cfg.luksImage = "" then (.returned, runDeferred false w1) else unlock w1
    else unlock w
  if cfg.outputPath ≠ "" then
    if cfg.outputPath = "-" then
      if os.stdoutWriteErr then (.fatal .writeStdout, w)
      else
        let w1 := { w with stdout := w.stdout ++ key }
        if cfg.luksImage = "" ∧ cfg.saveKeyPath = "" then (.returned, runDeferred false w1)
        else saveAndUnlock w1
    else
      if os.writeFileErr cfg.outputPath then (.fatal .writeKeyFile, w)
      else
        let w1 := { w with files := w.files ++ [(cfg.outputPath, key)] }
        if cfg.luksImage = "" ∧ cfg.saveKeyPath = "" then (.returned, runDeferred false w1)
        else saveAndUnlock w1
  else saveAndUnlock w

/-- Lines 776-869 of `main`: the protocol session on the open connection, then the outputs.
`challenge` is `[]byte(challengeStr)`. -/
def mainSession (cfg : Config) (os : OS) (challenge : List Byte) (w : World) : Exit × World :=
  let r1 := GetAppNameVersion w.tk
  match r1.1 with
  | .error e => (.fatal (.verifyApp e), { w with tk := r1.2 })
  | .ok _ =>
    let r2 := SetChallenge r1.2 challenge.length
    match r2.1 with
    | .error e => (.fatal (.setChallenge e), { w with tk := r2.2 })
    | .ok _ =>
      let r3 := LoadChallenge r2.2 challenge
      match r3.1 with
      | .error e => (.fatal (.loadChallenge e), { w with tk := r3.2 })
      | .ok _ =>
        let r4 := DeriveKey r3.2
        match r4.1 with
        | .error e => (.fatal (.deriveKey e), { w with tk := r4.2 })
        | .ok key => outputKey cfg os key { w with tk := r4.2 }

/-! ## Vocabulary of the statements -/

/-- A response that lets an exchange of `SetChallenge` or `LoadChallenge` go on: a frame of
at least 3 bytes whose status byte `rx[2]` is `statusOK`. -/
def respOK : Option (List Byte) → Bool
  | some rx => decide (3 ≤ rx.length) && decide (rx.getD 2 0 = statusOK)
  | none => false

/-- The transport accepts the `i`-th exchange from now on (counted from 0): the write of its
request reports no error and its response is an OK response. -/
def TillitisKey.accepts (tk : TillitisKey) (i : Nat) : Prop :=
  tk.writeErr (tk.written.length + i) = false ∧ respOK (tk.response (tk.readLog.length + i)) = true

instance (tk : TillitisKey) (i : Nat) : Decidable (tk.accepts i) := by
  unfold TillitisKey.accepts; exact inferInstance

/-- Successive chunks of at most `chunkSize` bytes, in order, as the spec words the splitting
of the challenge; `fuel` bounds the number of chunks. -/
def chunksOf : Nat → List Byte → List (List Byte)
  | 0, _ => []
  | fuel + 1, l => if l = [] then [] else l.take chunkSize :: chunksOf fuel (l.drop chunkSize)

/-- The load-challenge frame that carries the chunk `c`: header byte, command code, the bytes
of `c`, then zeros up to the 129 bytes of the frame. -/
def frameOfChunk (c : List Byte) : List Byte :=
  0x5b :: cmdLoadChallengeCode :: (c ++ List.replicate (127 - c.length) 0)

/-- The frames passed to `Write` between the state `tk` and the later state `tk1`. -/
def newFrames (tk tk1 : TillitisKey) : List (List Byte) := tk1.written.drop tk.written.length

/-- The state after an accepted exchange that wrote the frame `f`: one more frame written
and one more read made, under the current timeout. -/
def TillitisKey.exchanged (tk : TillitisKey) (f : List Byte) : TillitisKey :=
  { tk with written := tk.written ++ [f], readLog := tk.readLog ++ [tk.readTimeout] }

/-- The state after accepted exchanges that wrote the frames `fs`, in order. -/
def TillitisKey.exchangedMany (tk : TillitisKey) (fs : List (List Byte)) : TillitisKey :=
  { tk with written := tk.written ++ fs,
            readLog := tk.readLog ++ List.replicate fs.length tk.readTimeout }

/-- The set-challenge-size frame for `size`: header byte, command code, the four bytes
`byte(size)`, `byte(size >> 8)`, `byte(size >> 16)`, `byte(size >> 24)`, then zeros up to
the 33 bytes of the frame. -/
def setChallengeFrame (size : Int) : List Byte :=
  [0x5a, cmdSetChallengeCode, byteOfInt size, byteOfInt (size >>> 8), byteOfInt (size >>> 16),
    byteOfInt (size >>> 24)] ++ List.replicate 27 0

/-- The unsigned integer whose little-endian encoding is the four bytes `b0 b1 b2 b3`. -/
def le32 (b0 b1 b2 b3 : Byte) : Nat :=
  b0.val + 256 * b1.val + 65536 * b2.val + 16777216 * b3.val

/-- The state in which `GetAppNameVersion` returns once its read has been made. -/
def TillitisKey.afterGetNameVer (tk : TillitisKey) : TillitisKey :=
  { tk with written := tk.written ++ [[0x58, cmdGetNameVerCode]],
            readLog := tk.readLog ++ [2], readTimeout := 0 }

/-- The value a machine-id file offers as salt: its trimmed content, when the file could be
read and the trimmed content is not empty. -/
def usableFile (TrimSpace : List Byte → List Byte) : Option (List Byte) → Option (List Byte)
  | some data => if TrimSpace data ≠ [] then some (TrimSpace data) else none
  | none => none

/-- The value the product-UUID file offers as salt: as `usableFile`, and not the all-zero
UUID. -/
def usableUUID (TrimSpace : List Byte → List Byte) : Option (List Byte) → Option (List Byte)
  | some data =>
    if TrimSpace data ≠ [] ∧ TrimSpace data ≠ zeroUUID then some (TrimSpace data) else none
  | none => none

/-- The value the hostname offers as salt: the hostname, when it could be obtained, is not
empty and is not "localhost". -/
def usableHostname : Option (List Byte) → Option (List Byte)
  | some hostname =>
    if hostname ≠ [] ∧ hostname ≠ bytesOfASCII "localhost" then some hostname else none
  | none => none

/-- The four salt sources in the order of the spec, each with the value it offers. -/
def saltSources (TrimSpace : List Byte → List Byte) (env : SaltEnv) :
    List (Option (List Byte)) :=
  [usableFile TrimSpace (env.readFile "/etc/machine-id"),
   usableFile TrimSpace (env.readFile "/var/lib/dbus/machine-id"),
   usableUUID TrimSpace (env.readFile "/sys/class/dmi/id/product_uuid"),
   usableHostname env.hostname]

/-- The value of the first usable source of a list, if there is one. -/
def firstUsable : List (Option (List Byte)) → Option (List Byte)
  | [] => none
  | some v :: _ => some v
  | none :: rest => firstUsable rest

/-- First step of the session of `main`: the identity check on the connection of `w`. -/
def identityStep (w : World) : Except Error Unit × TillitisKey :=
  GetAppNameVersion w.tk

/-- Second step of the session of `main`: `SetChallenge(len(challenge))` on the connection
left by the identity check. -/
def setSizeStep (challenge : List Byte) (w : World) : Except Error Unit × TillitisKey :=
  SetChallenge (identityStep w).2 challenge.length

/-- Third step of the session of `main`: `LoadChallenge(challenge)` on the connection left by
`SetChallenge`. -/
def loadStep (challenge : List Byte) (w : World) : Except Error Unit × TillitisKey :=
  LoadChallenge (setSizeStep challenge w).2 challenge

/-- Between the worlds `w` and `w1` key material was put out: something was written to
standard output or to a file, the temporary key file changed, or `cryptsetup` was run. -/
def keyProduced (w w1 : World) : Prop :=
  w1.stdout ≠ w.stdout ∨ w1.files ≠ w.files ∨ w1.tmpKey ≠ w.tmpKey ∨
    w1.cryptsetup ≠ w.cryptsetup

/-- From the state `tk` to the later state `tk1` the read timeout was left as it was and
every read was made under it. -/
def TillitisKey.sameTimeout (tk tk1 : TillitisKey) : Prop :=
  tk1.readTimeout = tk.readTimeout ∧
    ∃ m, tk1.readLog = tk.readLog ++ List.replicate m tk.readTimeout

/-! ## Test fixtures -/

/-- The identity response of the expected application: "tk1 ", "luks", version 1. -/
def identityFrame : List Byte :=
  [0x52, 0x0a] ++ nameApp0 ++ nameApp1 ++ [1, 0, 0, 0] ++ List.replicate 19 0

/-- A derive-key response with status OK carrying the bytes 1..64 as key material. -/
def keyFrame : List Byte :=
  [0x5b, 0x08, 0] ++ (List.range 64).map (fun k => byteOfNat (k + 1)) ++ List.replicate 62 0

/-- A scripted device that accepts every request of a session with a one-chunk or two-chunk
challenge: identity "tk1 luks" version 1 on the first read, then status OK, with the bytes
1..64 as key material after the status byte. -/
def okDevice : TillitisKey where
  writeErr := fun _ => false
  response := fun i =>
    if i = 0 then some identityFrame
    else some keyFrame
  written := []
  readLog := []
  readTimeout := 0
  closed := false

/-- A device that answers status OK (a 5-byte frame) to every request. -/
def ackDevice : TillitisKey where
  writeErr := fun _ => false
  response := fun _ => some [0x51, 0x06, 0, 0, 0]
  written := []
  readLog := []
  readTimeout := 0
  closed := false

/-- A device whose every response is `keyFrame`. -/
def keyDevice : TillitisKey where
  writeErr := fun _ => false
  response := fun _ => some keyFrame
  written := []
  readLog := []
  readTimeout := 0
  closed := false

/-- A stand-in key-derivation function returning `keyLen` zero bytes. -/
def zeroKdf (c : KdfCall) : List Byte := List.replicate c.keyLen 0

/-- A trimming function for the fixtures: removes leading and trailing ASCII white space
(tab, line feed, vertical tab, form feed, carriage return, space). -/
def trimASCII (s : List Byte) : List Byte :=
  let isSpace : Byte → Bool := fun b => b.val = 9 || b.val = 10 || b.val = 11 || b.val = 12
    || b.val = 13 || b.val = 32
  ((s.dropWhile isSpace).reverse.dropWhile isSpace).reverse

/-- A machine with a machine-id file holding "abc" and a line feed, no other file, and the
hostname "box". -/
def machineIdEnv : SaltEnv where
  readFile := fun path => if path = "/etc/machine-id" then some [0x61, 0x62, 0x63, 0x0a] else none
  hostname := some [0x62, 0x6f, 0x78]

/-- The 19-byte challenge "luks-challenge-2024". -/
def challenge19 : List Byte := bytesOfASCII "luks-challenge-2024"

/-- The connection on `okDevice` at the point where `main` calls `DeriveKey`: after
`GetAppNameVersion`, `SetChallenge` and `LoadChallenge` for `challenge19`. -/
def sessionBeforeDerive : TillitisKey :=
  (LoadChallenge (SetChallenge (GetAppNameVersion okDevice).2 19).2 challenge19).2

/-- The world before the session on `okDevice`: nothing put out yet. -/
def world0 : World where
  tk := okDevice
  stdout := []
  files := []
  tmpKey := none
  cryptsetup := []

/-- Flags asking for the key on standard output only (`--output -`). -/
def cfgStdout : Config where
  outputPath := "-"
  saveKeyPath := ""
  luksImage := ""
  mapperName := "tkey-luks"
  verbose := false

/-- An operating system on which every call succeeds. -/
def osOK : OS where
  stdoutWriteErr := false
  writeFileErr := fun _ => false
  createTempErr := false
  tmpWriteErr := false
  tmpWritten := 0
  cryptsetupErr := false

/-- The 256-byte challenge 0, 1, ..., 255. -/
def challenge256 : List Byte := (List.range 256).map byteOfNat

/-- A device that answers status OK to every request but the second, which it rejects with
`statusBad`. -/
def nakSecondDevice : TillitisKey where
  writeErr := fun _ => false
  response := fun i => if i = 1 then some [0x51, 0x06, 1, 0, 0] else some [0x51, 0x06, 0, 0, 0]
  written := []
  readLog := []
  readTimeout := 0
  closed := false

/-- A 200-byte challenge. -/
def challenge200 : List Byte := (List.range 200).map byteOfNat

/-! ## Chunking -/

theorem NewFrameBuf_cmdLoadChallenge :
    NewFrameBuf cmdLoadChallenge 2 = some (0x5b :: cmdLoadChallengeCode :: List.replicate 127 0) := by
  decide

theorem copyAt_frame_gen (h c : Byte) (n : Nat) (chunk : List Byte) (hlen : chunk.length ≤ n) :
    copyAt (h :: c :: List.replicate n 0) 2 chunk
      = h :: c :: (chunk ++ List.replicate (n - chunk.length) 0) := by
  simp [copyAt, copy, List.take_of_length_le hlen, Nat.min_eq_right hlen]

theorem copyAt_frame (h c : Byte) (chunk : List Byte) (hlen : chunk.length ≤ 127) :
    copyAt (h :: c :: List.replicate 127 0) 2 chunk
      = h :: c :: (chunk ++ List.replicate (127 - chunk.length) 0) :=
  copyAt_frame_gen h c 127 chunk hlen

theorem slice_chunk (challenge : List Byte) (offset : Nat) :
    slice challenge offset (offset + (if challenge.length - offset < chunkSize
        then challenge.length - offset else chunkSize))
      = (challenge.drop offset).take chunkSize := by
  unfold slice
  split
  · rename_i h
    rw [Nat.add_sub_cancel_left, List.take_of_length_le (by simp),
      List.take_of_length_le (by simp; omega)]
  · simp

theorem drop_chunk (challenge : List Byte) (offset : Nat) :
    challenge.drop (offset + (if challenge.length - offset < chunkSize
        then challenge.length - offset else chunkSize))
      = (challenge.drop offset).drop chunkSize := by
  rw [List.drop_drop]
  split
  · rename_i h
    rw [List.drop_of_length_le (by omega), List.drop_of_length_le (by omega)]
  · rw [Nat.add_comm]


theorem loadChunk_ok (challenge : List Byte) (offset : Nat) (tk : TillitisKey)
    (h : tk.accepts 0) :
    loadChunk challenge offset tk
      = (.ok (offset + (if challenge.length - offset < chunkSize
            then challenge.length - offset else chunkSize)),
         tk.exchanged (frameOfChunk ((challenge.drop offset).take chunkSize))) := by
  obtain ⟨hw, hr⟩ := h
  simp only [Nat.add_zero] at hw hr
  have hlen : ((challenge.drop offset).take chunkSize).length ≤ 127 := by
    simp [chunkSize]
  cases hresp : tk.response tk.readLog.length with
  | none => simp [hresp, respOK] at hr
  | some rx =>
    simp only [hresp, respOK, Bool.and_eq_true, decide_eq_true_eq] at hr
    simp only [loadChunk, NewFrameBuf_cmdLoadChallenge, slice_chunk, TillitisKey.Write,
      TillitisKey.ReadFrame, hw, hresp, copyAt_frame _ _ _ hlen]
    simpa [TillitisKey.exchanged, frameOfChunk] using hr

theorem exchangedMany_nil (tk : TillitisKey) : tk.exchangedMany [] = tk := by
  simp [TillitisKey.exchangedMany]

theorem exchanged_exchangedMany (tk : TillitisKey) (f : List Byte) (fs : List (List Byte)) :
    (tk.exchanged f).exchangedMany fs = tk.exchangedMany (f :: fs) := by
  simp [TillitisKey.exchangedMany, TillitisKey.exchanged, List.replicate_succ]

theorem accepts_exchanged (tk : TillitisKey) (f : List Byte) (i : Nat) :
    (tk.exchanged f).accepts i ↔ tk.accepts (i + 1) := by
  simp [TillitisKey.accepts, TillitisKey.exchanged, Nat.add_assoc, Nat.add_comm 1 i]

theorem chunksOf_succ_of_ne_nil (fuel : Nat) (l : List Byte) (h : l ≠ []) :
    chunksOf (fuel + 1) l = l.take chunkSize :: chunksOf fuel (l.drop chunkSize) := by
  simp [chunksOf, h]

theorem loadLoop_ok (challenge : List Byte) :
    ∀ (fuel offset : Nat) (tk : TillitisKey), challenge.length - offset ≤ fuel →
      (∀ i, i < (chunksOf fuel (challenge.drop offset)).length → tk.accepts i) →
      loadLoop challenge fuel offset tk
        = some (.ok (), tk.exchangedMany ((chunksOf fuel (challenge.drop offset)).map frameOfChunk))
  | 0, offset, tk, hfuel, _ => by
    have : ¬ offset < challenge.length := by omega
    simp [loadLoop, this, chunksOf, exchangedMany_nil]
  | fuel + 1, offset, tk, hfuel, hacc => by
    by_cases hlt : offset < challenge.length
    · have hne : challenge.drop offset ≠ [] := by
        intro h
        have := congrArg List.length h
        simp at this
        omega
      rw [chunksOf_succ_of_ne_nil fuel _ hne] at hacc ⊢
      have h0 : tk.accepts 0 := hacc 0 (by simp)
      simp only [loadLoop, hlt, if_true, loadChunk_ok challenge offset tk h0]
      rw [loadLoop_ok challenge fuel _ _ (by simp only [chunkSize]; split <;> omega)]
      · rw [drop_chunk, exchanged_exchangedMany]
        simp
      · intro i hi
        rw [accepts_exchanged]
        apply hacc
        rw [drop_chunk] at hi
        simpa using hi
    · have hnil : challenge.drop offset = [] := List.drop_of_length_le (by omega)
      simp [loadLoop, hlt, hnil, chunksOf, exchangedMany_nil]

theorem length_pos_of_ne_nil (l : List Byte) (h : l ≠ []) : 1 ≤ l.length :=
  List.length_pos.mpr h

theorem chunksOf_flatten : ∀ (fuel : Nat) (l : List Byte), l.length ≤ fuel →
    (chunksOf fuel l).flatten = l
  | 0, l, h => by
    have : l = [] := List.length_eq_zero.mp (by omega)
    simp [chunksOf, this]
  | fuel + 1, l, h => by
    by_cases hl : l = []
    · simp [chunksOf, hl]
    · have hpos := length_pos_of_ne_nil l hl
      rw [chunksOf_succ_of_ne_nil fuel l hl, List.flatten_cons,
        chunksOf_flatten fuel _ (by simp [chunkSize]; omega), List.take_append_drop]

theorem chunksOf_mem_length : ∀ (fuel : Nat) (l c : List Byte), c ∈ chunksOf fuel l →
    1 ≤ c.length ∧ c.length ≤ 127
  | 0, l, c, h => by simp [chunksOf] at h
  | fuel + 1, l, c, h => by
    by_cases hl : l = []
    · simp [chunksOf, hl] at h
    · have hpos := length_pos_of_ne_nil l hl
      rw [chunksOf_succ_of_ne_nil fuel l hl, List.mem_cons] at h
      rcases h with h | h
      · subst h
        simp [chunkSize]
        omega
      · exact chunksOf_mem_length fuel _ c h

theorem chunksOf_length : ∀ (fuel : Nat) (l : List Byte), l.length ≤ fuel →
    (chunksOf fuel l).length = (l.length + 126) / 127
  | 0, l, h => by
    have : l = [] := List.length_eq_zero.mp (by omega)
    simp [chunksOf, this]
  | fuel + 1, l, h => by
    by_cases hl : l = []
    · simp [chunksOf, hl]
    · have hpos := length_pos_of_ne_nil l hl
      rw [chunksOf_succ_of_ne_nil fuel l hl, List.length_cons,
        chunksOf_length fuel _ (by simp [chunkSize]; omega)]
      simp only [List.length_drop, chunkSize]
      omega

theorem chunksOf_256 (l : List Byte) (h : l.length = 256) :
    chunksOf 256 l = [l.take 127, (l.drop 127).take 127, l.drop 254] := by
  have h1 : l ≠ [] := by intro e; simp [e] at h
  have h2 : l.drop 127 ≠ [] := by
    intro e; have := congrArg List.length e; simp [h] at this
  have h3 : l.drop 254 ≠ [] := by
    intro e; have := congrArg List.length e; simp [h] at this
  have h4 : l.drop 381 = [] := List.drop_of_length_le (by omega)
  have d2 : (l.drop 127).drop 127 = l.drop 254 := by simp
  have d3 : (l.drop 254).drop 127 = l.drop 381 := by simp
  have e1 : chunksOf 256 l = l.take 127 :: chunksOf 255 (l.drop 127) :=
    chunksOf_succ_of_ne_nil 255 l h1
  have e2 : chunksOf 255 (l.drop 127)
      = (l.drop 127).take 127 :: chunksOf 254 ((l.drop 127).drop 127) :=
    chunksOf_succ_of_ne_nil 254 _ h2
  have e3 : chunksOf 254 (l.drop 254)
      = (l.drop 254).take 127 :: chunksOf 253 ((l.drop 254).drop 127) :=
    chunksOf_succ_of_ne_nil 253 _ h3
  have e4 : chunksOf 253 (l.drop 381) = [] := by rw [h4]; rfl
  have t3 : (l.drop 254).take 127 = l.drop 254 :=
    List.take_of_length_le (by simp [h])
  rw [e1, e2, d2, e3, d3, e4, t3]

theorem LoadChallenge_ok (tk : TillitisKey) (challenge : List Byte)
    (hlen1 : 1 ≤ challenge.length) (hlen2 : challenge.length ≤ 256)
    (hacc : ∀ i, i < (challenge.length + 126) / 127 → tk.accepts i) :
    LoadChallenge tk challenge
      = (.ok (), tk.exchangedMany ((chunksOf challenge.length challenge).map frameOfChunk)) := by
  have hguard : ¬ (challenge.length = 0 ∨ challenge.length > maxChallengeSize) := by
    simp only [maxChallengeSize]; omega
  have hloop := loadLoop_ok challenge challenge.length 0 tk (by omega)
    (by
      intro i hi
      rw [List.drop_zero, chunksOf_length _ _ (Nat.le_refl _)] at hi
      exact hacc i hi)
  rw [List.drop_zero] at hloop
  simp only [LoadChallenge, hguard, if_false, hloop]

theorem slice_frameOfChunk (c : List Byte) : slice (frameOfChunk c) 2 (2 + c.length) = c := by
  simp [slice, frameOfChunk]

theorem newFrames_exchangedMany (tk : TillitisKey) (fs : List (List Byte)) :
    newFrames tk (tk.exchangedMany fs) = fs := by
  simp [newFrames, TillitisKey.exchangedMany]

/-- C1. Chunking round trip: for a challenge of 1 to 256 bytes and a transport that accepts
every load-challenge exchange, `LoadChallenge` returns success, and the frames it writes are
the frames of a list of chunks (each frame holding its chunk at `tx[2:2+len(chunk)]`) such
that every chunk has between 1 and 127 bytes and the chunks, concatenated in the order
written, are the challenge.  A 256-byte challenge is carried as bytes 0..126, 127..253 and
254..255. -/
theorem LoadChallenge_chunking_roundtrip (tk : TillitisKey) (challenge : List Byte)
    (hlen1 : 1 ≤ challenge.length) (hlen2 : challenge.length ≤ 256)
    (hacc : ∀ i, i < (challenge.length + 126) / 127 → tk.accepts i) :
    (LoadChallenge tk challenge).1 = .ok () ∧
    ∃ chunks : List (List Byte),
      newFrames tk (LoadChallenge tk challenge).2 = chunks.map frameOfChunk ∧
      (∀ c ∈ chunks, 1 ≤ c.length ∧ c.length ≤ 127 ∧
        slice (frameOfChunk c) 2 (2 + c.length) = c) ∧
      chunks.flatten = challenge ∧
      (challenge.length = 256 →
        chunks = [slice challenge 0 127, slice challenge 127 254, slice challenge 254 256]) := by
  rw [LoadChallenge_ok tk challenge hlen1 hlen2 hacc]
  refine ⟨rfl, chunksOf challenge.length challenge, newFrames_exchangedMany _ _, ?_, ?_, ?_⟩
  · intro c hc
    have := chunksOf_mem_length _ _ c hc
    exact ⟨this.1, this.2, slice_frameOfChunk c⟩
  · exact chunksOf_flatten _ _ (Nat.le_refl _)
  · intro h256
    rw [h256, chunksOf_256 challenge h256]
    have t3 : (challenge.drop 254).take 2 = challenge.drop 254 :=
      List.take_of_length_le (by simp [h256])
    simp [slice, t3]

theorem challenge256_length : challenge256.length = 256 := by
  simp [challenge256]

theorem ackDevice_accepts (i : Nat) : ackDevice.accepts i := ⟨rfl, rfl⟩

/-- Witness of C1: the 256-byte challenge 0..255 on a device that acknowledges every
request. -/
theorem LoadChallenge_chunking_roundtrip_witness :
    (1 ≤ challenge256.length ∧ challenge256.length ≤ 256) ∧
    (LoadChallenge ackDevice challenge256).1 = .ok () ∧
    ∃ chunks : List (List Byte),
      newFrames ackDevice (LoadChallenge ackDevice challenge256).2 = chunks.map frameOfChunk ∧
      (∀ c ∈ chunks, 1 ≤ c.length ∧ c.length ≤ 127 ∧
        slice (frameOfChunk c) 2 (2 + c.length) = c) ∧
      chunks.flatten = challenge256 ∧
      (challenge256.length = 256 →
        chunks = [slice challenge256 0 127, slice challenge256 127 254,
          slice challenge256 254 256]) :=
  ⟨by simp [challenge256_length],
   LoadChallenge_chunking_roundtrip ackDevice challenge256
    (by simp [challenge256_length]) (by simp [challenge256_length])
    (fun i _ => ackDevice_accepts i)⟩

/-! ## Abort on a rejected chunk -/

theorem not_accepts_iff (tk : TillitisKey) (i : Nat) :
    ¬ tk.accepts i ↔
      (tk.writeErr (tk.written.length + i) = true ∨
        tk.response (tk.readLog.length + i) = none ∨
        ∃ rx, tk.response (tk.readLog.length + i) = some rx ∧
          (rx.length < 3 ∨ rx.getD 2 0 ≠ statusOK)) := by
  unfold TillitisKey.accepts
  cases hw : tk.writeErr (tk.written.length + i) <;>
    cases hr : tk.response (tk.readLog.length + i) <;> simp [respOK]
  rename_i rx
  constructor
  · intro h
    by_cases h3 : rx.length < 3
    · exact Or.inl h3
    · exact Or.inr (h (by omega))
  · rintro (h | h) h3
    · omega
    · exact h

theorem loadChunk_bad (challenge : List Byte) (offset : Nat) (tk : TillitisKey)
    (h : ¬ tk.accepts 0) :
    (∃ e, (loadChunk challenge offset tk).1 = .error e) ∧
      (loadChunk challenge offset tk).2.written
        = tk.written ++ [frameOfChunk ((challenge.drop offset).take chunkSize)] := by
  have hlen : ((challenge.drop offset).take chunkSize).length ≤ 127 := by
    simp [chunkSize]
  rw [not_accepts_iff] at h
  simp only [Nat.add_zero] at h
  simp only [loadChunk, NewFrameBuf_cmdLoadChallenge, slice_chunk, TillitisKey.Write,
    TillitisKey.ReadFrame, copyAt_frame _ _ _ hlen]
  cases hw : tk.writeErr tk.written.length with
  | true => simp [frameOfChunk]
  | false =>
    simp only [hw] at h
    cases hr : tk.response tk.readLog.length with
    | none => simp [frameOfChunk]
    | some rx =>
      rcases h with h | h | ⟨rx1, h1, h2⟩
      · simp at h
      · simp [hr] at h
      · rw [hr] at h1
        cases h1
        have hcond : rx.length < 3 ∨ rx.getD 2 0 ≠ statusOK := h2
        simp only [Bool.not_false, Bool.true_eq_false, if_false, hcond, if_true]
        simp [frameOfChunk]

theorem loadLoop_abort (challenge : List Byte) :
    ∀ (fuel k offset : Nat) (tk : TillitisKey),
      k < (chunksOf fuel (challenge.drop offset)).length →
      (∀ i, i < k → tk.accepts i) → ¬ tk.accepts k →
      ∃ e tk1, loadLoop challenge fuel offset tk = some (.error e, tk1) ∧
        tk1.written = tk.written
          ++ ((chunksOf fuel (challenge.drop offset)).take (k + 1)).map frameOfChunk
  | 0, k, offset, tk, hk, _, _ => by simp [chunksOf] at hk
  | fuel + 1, k, offset, tk, hk, hgood, hbad => by
    have hne : challenge.drop offset ≠ [] := by
      intro h
      simp [h, chunksOf] at hk
    have hlt : offset < challenge.length := by
      by_contra hge
      exact hne (List.drop_of_length_le (by omega))
    rw [chunksOf_succ_of_ne_nil fuel _ hne] at hk ⊢
    cases k with
    | zero =>
      obtain ⟨⟨e, he⟩, hw⟩ := loadChunk_bad challenge offset tk hbad
      simp only [loadLoop, hlt, if_true]
      generalize loadChunk challenge offset tk = p at he hw
      obtain ⟨r, t⟩ := p
      simp only at he hw
      subst he
      exact ⟨e, t, rfl, by simp [hw]⟩
    | succ k =>
      have h0 : tk.accepts 0 := hgood 0 (by omega)
      simp only [loadLoop, hlt, if_true, loadChunk_ok challenge offset tk h0]
      obtain ⟨e, tk1, he, hw⟩ := loadLoop_abort challenge fuel k
        (offset + (if challenge.length - offset < chunkSize
            then challenge.length - offset else chunkSize))
        (tk.exchanged (frameOfChunk ((challenge.drop offset).take chunkSize)))
        (by rw [drop_chunk]; simpa using hk)
        (fun i hi => (accepts_exchanged _ _ _).mpr (hgood (i + 1) (by omega)))
        (fun h => hbad ((accepts_exchanged _ _ _).mp h))
      refine ⟨e, tk1, he, ?_⟩
      rw [hw, drop_chunk]
      simp [TillitisKey.exchanged]

/-- C2. Abort on a rejected chunk: for a challenge of 1 to 256 bytes, if the `k`-th
load-challenge exchange (`k` from 1 to the number of chunks) is the first one that is not
accepted, because its write or read reports a transport error, or its response is shorter
than 3 bytes, or its status byte is not zero, then `LoadChallenge` returns an error and has
written exactly `k` frames: those of the first `k` chunks, each once, none after the
failed one. -/
theorem LoadChallenge_abort_on_rejected_chunk (tk : TillitisKey) (challenge : List Byte)
    (k : Nat) (hlen1 : 1 ≤ challenge.length) (hlen2 : challenge.length ≤ 256)
    (hk1 : 1 ≤ k) (hk : k ≤ (challenge.length + 126) / 127)
    (hgood : ∀ i, i + 1 < k → tk.accepts i)
    (hbad : tk.writeErr (tk.written.length + (k - 1)) = true ∨
        tk.response (tk.readLog.length + (k - 1)) = none ∨
        ∃ rx, tk.response (tk.readLog.length + (k - 1)) = some rx ∧
          (rx.length < 3 ∨ rx.getD 2 0 ≠ statusOK)) :
    (∃ e, (LoadChallenge tk challenge).1 = .error e) ∧
    (newFrames tk (LoadChallenge tk challenge).2).length = k ∧
    newFrames tk (LoadChallenge tk challenge).2
      = ((chunksOf challenge.length challenge).take k).map frameOfChunk := by
  have hguard : ¬ (challenge.length = 0 ∨ challenge.length > maxChallengeSize) := by
    simp only [maxChallengeSize]; omega
  have hcount := chunksOf_length challenge.length challenge (Nat.le_refl _)
  obtain ⟨e, tk1, he, hw⟩ := loadLoop_abort challenge challenge.length (k - 1) 0 tk
    (by rw [List.drop_zero, hcount]; omega)
    (fun i hi => hgood i (by omega))
    ((not_accepts_iff tk (k - 1)).mpr hbad)
  rw [List.drop_zero, Nat.sub_add_cancel hk1] at hw
  simp only [LoadChallenge, hguard, if_false, he]
  refine ⟨⟨e, rfl⟩, ?_, ?_⟩
  · simp [newFrames, hw, hcount]
    omega
  · simp [newFrames, hw]

theorem challenge200_length : challenge200.length = 200 := by
  simp [challenge200]

/-- Witness of C2: a 200-byte challenge whose second response has a non-OK status; two
frames are written and no third. -/
theorem LoadChallenge_abort_on_rejected_chunk_witness :
    (∃ e, (LoadChallenge nakSecondDevice challenge200).1 = .error e) ∧
    (newFrames nakSecondDevice (LoadChallenge nakSecondDevice challenge200).2).length = 2 ∧
    newFrames nakSecondDevice (LoadChallenge nakSecondDevice challenge200).2
      = ((chunksOf challenge200.length challenge200).take 2).map frameOfChunk :=
  LoadChallenge_abort_on_rejected_chunk nakSecondDevice challenge200 2
    (by simp [challenge200_length]) (by simp [challenge200_length]) (by decide)
    (by simp [challenge200_length])
    (fun i hi => by
      have : i = 0 := by omega
      subst this
      exact ⟨rfl, rfl⟩)
    (Or.inr (Or.inr ⟨[0x51, 0x06, 1, 0, 0], rfl, Or.inr (by decide)⟩))

/-! ## Challenge-size validation -/

theorem NewFrameBuf_cmdSetChallenge :
    NewFrameBuf cmdSetChallenge 2 = some (0x5a :: cmdSetChallengeCode :: List.replicate 31 0) := by
  decide

theorem SetChallenge_invalid (tk : TillitisKey) (size : Int) (h : size ≤ 0 ∨ size > 256) :
    SetChallenge tk size = (.error (.invalidChallengeSize size maxChallengeSize), tk) := by
  have h1 : size ≤ 0 ∨ size > (maxChallengeSize : Int) := by
    simpa [maxChallengeSize] using h
  simp only [SetChallenge, h1, if_true]

theorem SetChallenge_valid (tk : TillitisKey) (size : Int) (h1 : 1 ≤ size) (h2 : size ≤ 256) :
    (SetChallenge tk size).1 ≠ .error (.invalidChallengeSize size maxChallengeSize) ∧
    (SetChallenge tk size).2.written = tk.written ++ [setChallengeFrame size] ∧
    ((SetChallenge tk size).1 = .ok () ↔ tk.accepts 0) ∧
    ((SetChallenge tk size).1 = .ok () →
      (SetChallenge tk size).2 = tk.exchanged (setChallengeFrame size)) := by
  have hguard : ¬ (size ≤ 0 ∨ size > (maxChallengeSize : Int)) := by
    simp only [maxChallengeSize]; push_cast; omega
  have hframe : setByte (setByte (setByte (setByte
      (0x5a :: cmdSetChallengeCode :: List.replicate 31 0) 2 (byteOfInt size)) 3
        (byteOfInt (size >>> 8))) 4 (byteOfInt (size >>> 16))) 5 (byteOfInt (size >>> 24))
      = setChallengeFrame size := by
    simp [setByte, setChallengeFrame, List.replicate]
  simp only [SetChallenge, hguard, if_false, NewFrameBuf_cmdSetChallenge, hframe,
    TillitisKey.Write, TillitisKey.ReadFrame, TillitisKey.accepts, Nat.add_zero]
  cases hw : tk.writeErr tk.written.length with
  | true => simp
  | false =>
    cases hr : tk.response tk.readLog.length with
    | none => simp [respOK]
    | some rx =>
      by_cases hc : rx.length < 3 ∨ rx.getD 2 0 ≠ statusOK
      · simp only [Bool.not_false, Bool.true_eq_false, if_false, hc, if_true]
        simp [respOK]
        rcases hc with hc | hc
        · intro h3; omega
        · intro _; simpa using hc
      · simp only [Bool.not_false, Bool.true_eq_false, if_false, hc]
        simp [respOK, TillitisKey.exchanged]
        push_neg at hc
        exact ⟨by omega, by simpa using hc.2⟩

/-- C3. Challenge-size validation precedes all I/O: for a size that is at most 0 or above
256, `SetChallenge` returns the invalid-size error and leaves the transport untouched (no
frame written, no read made); for a size from 1 to 256 the validation passes and exactly one
frame, the set-challenge-size frame, is written. -/
theorem SetChallenge_validation_before_io (tk : TillitisKey) (size : Int) :
    ((size ≤ 0 ∨ size > 256) →
      (SetChallenge tk size).1 = .error (.invalidChallengeSize size 256) ∧
      (SetChallenge tk size).2 = tk ∧
      newFrames tk (SetChallenge tk size).2 = [] ∧
      (SetChallenge tk size).2.readLog = tk.readLog) ∧
    ((1 ≤ size ∧ size ≤ 256) →
      (SetChallenge tk size).1 ≠ .error (.invalidChallengeSize size 256) ∧
      newFrames tk (SetChallenge tk size).2 = [setChallengeFrame size] ∧
      (setChallengeFrame size).getD 1 0 = cmdSetChallengeCode) := by
  constructor
  · intro h
    rw [SetChallenge_invalid tk size h]
    simp [newFrames, maxChallengeSize]
  · rintro ⟨h1, h2⟩
    obtain ⟨hv, hw, -, -⟩ := SetChallenge_valid tk size h1 h2
    refine ⟨hv, ?_, rfl⟩
    simp [newFrames, hw]

/-- Witness of C3: sizes 0, 257 and -1 are refused without I/O, sizes 1 and 256 pass. -/
theorem SetChallenge_validation_before_io_witness :
    ((SetChallenge ackDevice 0).2.written = [] ∧ (SetChallenge ackDevice 0).2.readLog = []) ∧
    ((SetChallenge ackDevice 257).2.written = [] ∧ (SetChallenge ackDevice 257).2.readLog = []) ∧
    newFrames ackDevice (SetChallenge ackDevice (-1)).2 = [] ∧
    newFrames ackDevice (SetChallenge ackDevice 1).2 = [setChallengeFrame 1] ∧
    newFrames ackDevice (SetChallenge ackDevice 256).2 = [setChallengeFrame 256] := by
  have a := (SetChallenge_validation_before_io ackDevice 0).1 (Or.inl (by decide))
  have b := (SetChallenge_validation_before_io ackDevice 257).1 (Or.inr (by decide))
  have c := (SetChallenge_validation_before_io ackDevice (-1)).1 (Or.inl (by decide))
  have d := (SetChallenge_validation_before_io ackDevice 1).2 ⟨by decide, by decide⟩
  have e := (SetChallenge_validation_before_io ackDevice 256).2 ⟨by decide, by decide⟩
  refine ⟨⟨?_, ?_⟩, ⟨?_, ?_⟩, c.2.2.1, d.2.1, e.2.1⟩
  · rw [a.2.1]; rfl
  · rw [a.2.1]; rfl
  · rw [b.2.1]; rfl
  · rw [b.2.1]; rfl

/-! ## Identity verification -/

theorem NewFrameBuf_cmdGetNameVer :
    NewFrameBuf cmdGetNameVer 2 = some [0x58, cmdGetNameVerCode] := by
  decide

theorem version_eq_le32 (b0 b1 b2 b3 : Byte) :
    u32 (u32 (u32 (u32 b0.val + u32 (b1.val <<< 8)) + u32 (b2.val <<< 16)) + u32 (b3.val <<< 24))
      = le32 b0 b1 b2 b3 := by
  have h0 := b0.isLt
  have h1 := b1.isLt
  have h2 := b2.isLt
  have h3 := b3.isLt
  simp only [u32, le32, Nat.shiftLeft_eq]
  omega

theorem GetAppNameVersion_write_fails (tk : TillitisKey)
    (hw : tk.writeErr tk.written.length = true) :
    GetAppNameVersion tk
      = (.error .write, { tk with written := tk.written ++ [[0x58, cmdGetNameVerCode]] }) := by
  simp [GetAppNameVersion, NewFrameBuf_cmdGetNameVer, TillitisKey.Write, hw]

theorem GetAppNameVersion_read_fails (tk : TillitisKey)
    (hw : tk.writeErr tk.written.length = false)
    (hr : tk.response tk.readLog.length = none) :
    GetAppNameVersion tk = (.error .readFrame, tk.afterGetNameVer) := by
  simp [GetAppNameVersion, NewFrameBuf_cmdGetNameVer, TillitisKey.Write, TillitisKey.ReadFrame,
    TillitisKey.SetReadTimeoutNoErr, hw, hr, TillitisKey.afterGetNameVer]

theorem GetAppNameVersion_read (tk : TillitisKey) (rx : List Byte)
    (hw : tk.writeErr tk.written.length = false)
    (hr : tk.response tk.readLog.length = some rx) :
    GetAppNameVersion tk =
      (if rx.length < 14 then .error (.responseTooShort rx.length)
       else if slice rx 2 6 ≠ nameApp0 ∨ slice rx 6 10 ≠ nameApp1 then
         .error (.unexpectedAppName (slice rx 2 6) (slice rx 6 10))
       else if le32 (rx.getD 10 0) (rx.getD 11 0) (rx.getD 12 0) (rx.getD 13 0) ≠ 1 then
         .error (.unexpectedAppVersion
           (le32 (rx.getD 10 0) (rx.getD 11 0) (rx.getD 12 0) (rx.getD 13 0)) 1)
       else .ok (), tk.afterGetNameVer) := by
  simp only [GetAppNameVersion, NewFrameBuf_cmdGetNameVer, TillitisKey.Write,
    TillitisKey.ReadFrame, TillitisKey.SetReadTimeoutNoErr, hw, hr, version_eq_le32, wantVer]
  simp only [Bool.not_false, Bool.true_eq_false, if_false, TillitisKey.afterGetNameVer]
  split_ifs <;> rfl

/-- C4. Identity verification accepts exactly the expected identity: when the transport
returns the frame `rx` to the identity query, `GetAppNameVersion` succeeds if and only if
`rx` has at least 14 bytes, `rx[2:6]` is "tk1 ", `rx[6:10]` is "luks" and the little-endian
integer in `rx[10:14]` is 1.  On a frame of at least 14 bytes a wrong name tag is reported as
the unexpected-name error, and a wrong version under the right name as the
unexpected-version error; the two errors are never equal. -/
theorem GetAppNameVersion_accepts_exactly (tk : TillitisKey) (rx : List Byte)
    (hw : tk.writeErr tk.written.length = false)
    (hr : tk.response tk.readLog.length = some rx) :
    ((GetAppNameVersion tk).1 = .ok () ↔
      (14 ≤ rx.length ∧ slice rx 2 6 = nameApp0 ∧ slice rx 6 10 = nameApp1 ∧
        le32 (rx.getD 10 0) (rx.getD 11 0) (rx.getD 12 0) (rx.getD 13 0) = 1)) ∧
    (14 ≤ rx.length → (slice rx 2 6 ≠ nameApp0 ∨ slice rx 6 10 ≠ nameApp1) →
      (GetAppNameVersion tk).1
        = .error (.unexpectedAppName (slice rx 2 6) (slice rx 6 10))) ∧
    (14 ≤ rx.length → slice rx 2 6 = nameApp0 → slice rx 6 10 = nameApp1 →
      le32 (rx.getD 10 0) (rx.getD 11 0) (rx.getD 12 0) (rx.getD 13 0) ≠ 1 →
      (GetAppNameVersion tk).1 = .error (.unexpectedAppVersion
        (le32 (rx.getD 10 0) (rx.getD 11 0) (rx.getD 12 0) (rx.getD 13 0)) 1)) ∧
    (∀ n0 n1 v w, Error.unexpectedAppName n0 n1 ≠ Error.unexpectedAppVersion v w) := by
  rw [GetAppNameVersion_read tk rx hw hr]
  refine ⟨?_, ?_, ?_, ?_⟩
  · constructor
    · intro h
      simp only at h
      split_ifs at h with h1 h2 h3
      push_neg at h2 h3
      exact ⟨by omega, h2.1, h2.2, h3⟩
    · rintro ⟨h1, h2, h3, h4⟩
      rw [if_neg (by omega), if_neg (by simp [h2, h3]), if_neg (not_not.mpr h4)]
  · intro h1 h2
    rw [if_neg (by omega), if_pos h2]
  · intro h1 h2 h3 h4
    rw [if_neg (by omega), if_neg (by simp [h2, h3]), if_pos h4]
  · intro n0 n1 v w h
    cases h

theorem okDevice_identity : okDevice.response okDevice.readLog.length = some identityFrame := rfl

/-- Witness of C4: the identity response of the expected application is accepted. -/
theorem GetAppNameVersion_accepts_exactly_witness :
    (GetAppNameVersion okDevice).1 = .ok () := by
  have h := (GetAppNameVersion_accepts_exactly okDevice identityFrame rfl okDevice_identity).1
  exact h.mpr (by decide)

/-! ## Derive-key response -/

theorem NewFrameBuf_cmdDeriveKey :
    NewFrameBuf cmdDeriveKey 2 = some [0x58, cmdDeriveKeyCode] := by
  decide

theorem copy_same_length (dst src : List Byte) (h : src.length = dst.length) :
    copy dst src = src := by
  simp [copy, ← h]

theorem slice_length (s : List Byte) (lo hi : Nat) (h : hi ≤ s.length) :
    (slice s lo hi).length = hi - lo := by
  simp [slice]
  omega

theorem DeriveKey_write_fails (tk : TillitisKey) (hw : tk.writeErr tk.written.length = true) :
    DeriveKey tk = (.error .write, { tk with written := tk.written ++ [[0x58, cmdDeriveKeyCode]] }) := by
  simp [DeriveKey, NewFrameBuf_cmdDeriveKey, TillitisKey.Write, hw]

theorem DeriveKey_read_fails (tk : TillitisKey) (hw : tk.writeErr tk.written.length = false)
    (hr : tk.response tk.readLog.length = none) :
    DeriveKey tk = (.error .readFrame, tk.exchanged [0x58, cmdDeriveKeyCode]) := by
  simp [DeriveKey, NewFrameBuf_cmdDeriveKey, TillitisKey.Write, TillitisKey.ReadFrame, hw, hr,
    TillitisKey.exchanged]

theorem DeriveKey_read (tk : TillitisKey) (rx : List Byte)
    (hw : tk.writeErr tk.written.length = false)
    (hr : tk.response tk.readLog.length = some rx) :
    DeriveKey tk =
      (if rx.length < 67 then .error (.responseTooShortExpected rx.length 67)
       else if rx.getD 2 0 ≠ statusOK then .error .deviceErrorStatus
       else .ok (slice rx 3 67), tk.exchanged [0x58, cmdDeriveKeyCode]) := by
  simp only [DeriveKey, NewFrameBuf_cmdDeriveKey, TillitisKey.Write, TillitisKey.ReadFrame,
    hw, hr]
  simp only [Bool.not_false, Bool.true_eq_false, if_false, TillitisKey.exchanged,
    Nat.reduceAdd]
  by_cases h1 : rx.length < 67
  · simp only [h1, if_true]
  · simp only [h1, if_false]
    have hs : (slice rx 3 67).length = (List.replicate 64 (0 : Byte)).length := by
      rw [slice_length rx 3 67 (by omega)]; simp
    rw [copy_same_length _ _ hs]
    split_ifs <;> rfl

/-- C5. Derive-key response decoding: when the transport returns the frame `rx` to the
derive-key request, `DeriveKey` returns a key if and only if `rx` has at least 67 bytes and
its status byte `rx[2]` is 0, and the key is then the 64 bytes `rx[3:67]`.  A frame shorter
than 67 bytes is rejected with the short-response error; a frame of full length with a
nonzero status is rejected with the device-status error (the length is checked first); the
two errors differ and neither outcome carries a key. -/
theorem DeriveKey_decodes_response (tk : TillitisKey) (rx : List Byte)
    (hw : tk.writeErr tk.written.length = false)
    (hr : tk.response tk.readLog.length = some rx) :
    ((∃ key, (DeriveKey tk).1 = .ok key) ↔ (67 ≤ rx.length ∧ rx.getD 2 0 = 0)) ∧
    (∀ key, (DeriveKey tk).1 = .ok key → key.length = 64 ∧ key = slice rx 3 67) ∧
    (rx.length < 67 →
      (DeriveKey tk).1 = .error (.responseTooShortExpected rx.length 67)) ∧
    (67 ≤ rx.length → rx.getD 2 0 ≠ 0 → (DeriveKey tk).1 = .error .deviceErrorStatus) ∧
    (∀ n m, Error.responseTooShortExpected n m ≠ Error.deviceErrorStatus) ∧
    ((rx.length < 67 ∨ rx.getD 2 0 ≠ 0) → ∀ key, (DeriveKey tk).1 ≠ .ok key) := by
  rw [DeriveKey_read tk rx hw hr]
  have hiff : ∀ key : List Byte,
      (if rx.length < 67 then (Except.error (.responseTooShortExpected rx.length 67)
          : Except Error (List Byte))
        else if rx.getD 2 0 ≠ statusOK then .error .deviceErrorStatus
        else .ok (slice rx 3 67)) = .ok key
      ↔ (67 ≤ rx.length ∧ rx.getD 2 0 = 0 ∧ key = slice rx 3 67) := by
    intro key
    by_cases h1 : rx.length < 67
    · rw [if_pos h1]
      constructor
      · intro h; cases h
      · rintro ⟨h, -⟩; omega
    · rw [if_neg h1]
      by_cases h2 : rx.getD 2 0 ≠ statusOK
      · rw [if_pos h2]
        constructor
        · intro h; cases h
        · rintro ⟨-, h, -⟩; exact absurd h h2
      · rw [if_neg h2]
        constructor
        · intro h
          injection h with h
          exact ⟨by omega, not_not.mp h2, h.symm⟩
        · rintro ⟨-, -, h⟩; rw [h]
  refine ⟨?_, ?_, ?_, ?_, ?_, ?_⟩
  · constructor
    · rintro ⟨key, h⟩
      have := (hiff key).mp h
      exact ⟨this.1, this.2.1⟩
    · rintro ⟨h1, h2⟩
      exact ⟨slice rx 3 67, (hiff _).mpr ⟨h1, h2, rfl⟩⟩
  · intro key h
    obtain ⟨h1, -, h3⟩ := (hiff key).mp h
    refine ⟨?_, h3⟩
    rw [h3, slice_length rx 3 67 h1]
  · intro h
    simp only [h, if_true]
  · intro h1 h2
    have h2s : rx.getD 2 0 ≠ statusOK := h2
    rw [if_neg (by omega), if_pos h2s]
  · intro n m h
    cases h
  · intro h key hk
    obtain ⟨h1, h2, -⟩ := (hiff key).mp hk
    rcases h with h | h
    · omega
    · exact h h2

theorem keyDevice_response : keyDevice.response keyDevice.readLog.length = some keyFrame := rfl

theorem keyFrame_length : keyFrame.length = 129 := by
  simp [keyFrame]

/-- Witness of C5: a full-length response with status OK yields a 64-byte key. -/
theorem DeriveKey_decodes_response_witness :
    ∃ key, (DeriveKey keyDevice).1 = .ok key ∧ key.length = 64 ∧ key = slice keyFrame 3 67 := by
  have h := DeriveKey_decodes_response keyDevice keyFrame rfl keyDevice_response
  obtain ⟨key, hk⟩ := h.1.mpr ⟨by rw [keyFrame_length]; omega, by decide⟩
  exact ⟨key, hk, h.2.1 key hk⟩

/-! ## USS derivation -/

/-- C6. USS derivation input rejection: `deriveUSSFromPassword` returns an error and makes no
call to the key-derivation function when the password is empty, when the salt is empty, and
when the iteration count is below 10000.  An empty password gives the empty-password error, an
empty salt (password not empty) the empty-salt error, a low count (password and salt not
empty) the iterations error, and these three errors are pairwise different.  With a non-empty
password and salt a count of 10000 or more is not rejected: the key-derivation function is
called once, with that count and length 32. -/
theorem deriveUSSFromPassword_rejects (kdf : KdfCall → List Byte) (password salt : List Byte)
    (iterations : Int) :
    ((password = [] ∨ salt = [] ∨ iterations < 10000) →
      (∃ e, (deriveUSSFromPassword kdf password salt iterations).1 = .error e) ∧
      (deriveUSSFromPassword kdf password salt iterations).2 = []) ∧
    (password = [] →
      (deriveUSSFromPassword kdf password salt iterations).1 = .error .passwordEmpty) ∧
    (password ≠ [] → salt = [] →
      (deriveUSSFromPassword kdf password salt iterations).1 = .error .saltEmpty) ∧
    (password ≠ [] → salt ≠ [] → iterations < 10000 →
      (deriveUSSFromPassword kdf password salt iterations).1 = .error .iterationsTooLow) ∧
    (Error.passwordEmpty ≠ Error.saltEmpty ∧ Error.passwordEmpty ≠ Error.iterationsTooLow ∧
      Error.saltEmpty ≠ Error.iterationsTooLow) ∧
    (password ≠ [] → salt ≠ [] → 10000 ≤ iterations →
      (deriveUSSFromPassword kdf password salt iterations).2
        = [⟨password, salt, iterations, 32⟩] ∧
      (deriveUSSFromPassword kdf password salt iterations).1 ≠ .error .iterationsTooLow ∧
      ((kdf ⟨password, salt, iterations, 32⟩).length = 32 →
        (deriveUSSFromPassword kdf password salt iterations).1
          = .ok (kdf ⟨password, salt, iterations, 32⟩))) := by
  by_cases hp : password = []
  · simp [deriveUSSFromPassword, hp]
  · by_cases hs : salt = []
    · simp [deriveUSSFromPassword, hp, hs]
    · have hs0 : ¬ salt.length = 0 := fun h => hs (List.length_eq_zero.mp h)
      by_cases hi : iterations < 10000
      · simp [deriveUSSFromPassword, hp, hs, hi]
      · have hi1 : 10000 ≤ iterations := by omega
        simp only [deriveUSSFromPassword, hp, hs, hs0, hi, if_false, ussLength]
        refine ⟨by simp [hp, hs, hi], by simp [hp], by simp [hs], by simp [hi], by simp, ?_⟩
        intro _ _ _
        by_cases hl : (kdf ⟨password, salt, iterations, 32⟩).length = 32
        · simp [hl]
        · simp [hl]

/-- Witness of C6: 9999 iterations are rejected without a call to the key-derivation
function, 10000 are not. -/
theorem deriveUSSFromPassword_rejects_witness :
    (deriveUSSFromPassword zeroKdf [0x70] [0x73] 9999) = (.error .iterationsTooLow, []) ∧
    (deriveUSSFromPassword zeroKdf [0x70] [0x73] 10000).1 = .ok (List.replicate 32 0) ∧
    (deriveUSSFromPassword zeroKdf [] [0x73] 10000).2 = [] ∧
    (deriveUSSFromPassword zeroKdf [0x70] [] 10000).1 = .error .saltEmpty := by
  have a := deriveUSSFromPassword_rejects zeroKdf [0x70] [0x73] 9999
  have b := deriveUSSFromPassword_rejects zeroKdf [0x70] [0x73] 10000
  have c := deriveUSSFromPassword_rejects zeroKdf [] [0x73] 10000
  have d := deriveUSSFromPassword_rejects zeroKdf [0x70] [] 10000
  refine ⟨Prod.ext (a.2.2.2.1 (by decide) (by decide) (by decide))
      (a.1 (Or.inr (Or.inr (by decide)))).2,
    (b.2.2.2.2.2 (by decide) (by decide) (by decide)).2.2 (by decide),
    (c.1 (Or.inl rfl)).2, d.2.2.1 (by decide) rfl⟩

/-! ## Salt discovery -/

theorem getSystemSalt_eq_firstUsable (TrimSpace : List Byte → List Byte) (env : SaltEnv) :
    getSystemSalt TrimSpace env =
      match firstUsable (saltSources TrimSpace env) with
      | some v => .ok v
      | none => .error .noSystemSalt := by
  unfold getSystemSalt saltSources
  cases h1 : env.readFile "/etc/machine-id" <;>
    cases h2 : env.readFile "/var/lib/dbus/machine-id" <;>
    cases h3 : env.readFile "/sys/class/dmi/id/product_uuid" <;>
    cases h4 : env.hostname <;>
    simp only [usableFile, usableUUID, usableHostname, firstUsable] <;>
    split_ifs <;> simp_all [firstUsable]

theorem firstUsable_eq_none (l : List (Option (List Byte))) :
    firstUsable l = none ↔ ∀ s ∈ l, s = none := by
  induction l with
  | nil => simp [firstUsable]
  | cons a rest ih =>
    cases a with
    | none => simp [firstUsable, ih]
    | some v => simp [firstUsable]

theorem firstUsable_mem (l : List (Option (List Byte))) (v : List Byte)
    (h : firstUsable l = some v) : some v ∈ l := by
  induction l with
  | nil => simp [firstUsable] at h
  | cons a rest ih =>
    cases a with
    | none => exact List.mem_cons_of_mem _ (ih (by simpa [firstUsable] using h))
    | some w =>
      simp only [firstUsable, Option.some.injEq] at h
      simp [h]

theorem firstUsable_append (p r : List (Option (List Byte))) (h : firstUsable p ≠ none) :
    firstUsable (p ++ r) = firstUsable p := by
  induction p with
  | nil => simp [firstUsable] at h
  | cons a rest ih =>
    cases a with
    | none => simpa [firstUsable] using ih (by simpa [firstUsable] using h)
    | some w => simp [firstUsable]

theorem saltSources_ne_nil (TrimSpace : List Byte → List Byte) (env : SaltEnv) (v : List Byte)
    (h : some v ∈ saltSources TrimSpace env) : v ≠ [] := by
  simp only [saltSources, List.mem_cons, List.mem_singleton, List.not_mem_nil, or_false] at h
  rcases h with h | h | h | h
  · cases hc : env.readFile "/etc/machine-id" <;> rw [hc] at h <;>
      simp only [usableFile] at h
    · cases h
    · split_ifs at h with h1
      cases h; exact h1
  · cases hc : env.readFile "/var/lib/dbus/machine-id" <;> rw [hc] at h <;>
      simp only [usableFile] at h
    · cases h
    · split_ifs at h with h1
      cases h; exact h1
  · cases hc : env.readFile "/sys/class/dmi/id/product_uuid" <;> rw [hc] at h <;>
      simp only [usableUUID] at h
    · cases h
    · split_ifs at h with h1
      cases h; exact h1.1
  · cases hc : env.hostname <;> rw [hc] at h <;> simp only [usableHostname] at h
    · cases h
    · split_ifs at h with h1
      cases h; exact h1.1

/-- C7. Salt discovery order: `getSystemSalt` returns the value of the first usable source in
the order /etc/machine-id, /var/lib/dbus/machine-id, DMI product UUID, hostname (a file is
usable when its trimmed content is not empty, the product UUID also when it is not the
all-zero UUID, the hostname when it is not empty and not "localhost").  Two environments that
agree on the sources up to a usable one give the same result, whatever the later sources are;
the function fails exactly when no source is usable, and never returns an empty salt.  A
readable machine-id with non-empty trimmed content is returned whatever the hostname is. -/
theorem getSystemSalt_first_usable (TrimSpace : List Byte → List Byte) (env : SaltEnv) :
    (getSystemSalt TrimSpace env =
      match firstUsable (saltSources TrimSpace env) with
      | some v => .ok v
      | none => .error .noSystemSalt) ∧
    (∀ (env1 : SaltEnv) (k : Nat),
      (saltSources TrimSpace env1).take k = (saltSources TrimSpace env).take k →
      firstUsable ((saltSources TrimSpace env).take k) ≠ none →
      getSystemSalt TrimSpace env1 = getSystemSalt TrimSpace env) ∧
    ((∃ e, getSystemSalt TrimSpace env = .error e) ↔
      ∀ s ∈ saltSources TrimSpace env, s = none) ∧
    getSystemSalt TrimSpace env ≠ .ok [] ∧
    (∀ data, env.readFile "/etc/machine-id" = some data → TrimSpace data ≠ [] →
      getSystemSalt TrimSpace env = .ok (TrimSpace data)) := by
  refine ⟨getSystemSalt_eq_firstUsable TrimSpace env, ?_, ?_, ?_, ?_⟩
  · intro env1 k hk hne
    rw [getSystemSalt_eq_firstUsable, getSystemSalt_eq_firstUsable]
    have e1 : firstUsable (saltSources TrimSpace env1)
        = firstUsable ((saltSources TrimSpace env).take k) := by
      conv_lhs => rw [← List.take_append_drop k (saltSources TrimSpace env1), hk]
      exact firstUsable_append _ _ hne
    have e2 : firstUsable (saltSources TrimSpace env)
        = firstUsable ((saltSources TrimSpace env).take k) := by
      conv_lhs => rw [← List.take_append_drop k (saltSources TrimSpace env)]
      exact firstUsable_append _ _ hne
    rw [e1, e2]
  · rw [getSystemSalt_eq_firstUsable, ← firstUsable_eq_none]
    cases h : firstUsable (saltSources TrimSpace env) <;> simp
  · rw [getSystemSalt_eq_firstUsable]
    cases h : firstUsable (saltSources TrimSpace env) with
    | none => simp
    | some v =>
      have := saltSources_ne_nil TrimSpace env v (firstUsable_mem _ _ h)
      simpa using this
  · intro data hd hne
    rw [getSystemSalt_eq_firstUsable]
    simp [saltSources, hd, usableFile, hne, firstUsable]

/-- Witness of C7: with a machine-id and a hostname both present the machine-id is
returned, also when the hostname changes. -/
theorem getSystemSalt_first_usable_witness :
    getSystemSalt trimASCII machineIdEnv = .ok [0x61, 0x62, 0x63] ∧
    getSystemSalt trimASCII { machineIdEnv with hostname := none }
      = getSystemSalt trimASCII machineIdEnv := by
  have h := getSystemSalt_first_usable trimASCII machineIdEnv
  refine ⟨?_, ?_⟩
  · have := h.2.2.2.2 [0x61, 0x62, 0x63, 0x0a] (by decide) (by decide)
    rw [this]
    decide
  · exact h.2.1 { machineIdEnv with hostname := none } 1 (by decide) (by decide)

/-! ## The temporary key file -/

/-- C8 (the code at its failing inputs). After the temporary key file has been created, the
volume-unlock step of `main` removes it only on the path where `main` returns: when
`cryptsetup` fails, or when the write of the key to the file fails, `le.Fatalf` ends the
process and the file is still there, holding the key (or the part of it that was written). -/
theorem unlockStep_keeps_key_file_on_failure (cfg : Config) (key : List Byte) (w : World)
    (so : Bool) (wf : String → Bool) (n : Nat) :
    ((unlockStep cfg ⟨so, wf, false, false, n, true⟩ key w).1
        = .fatal (.unlockLUKS .cryptsetupFailed) ∧
      (unlockStep cfg ⟨so, wf, false, false, n, true⟩ key w).2.tmpKey = some key) ∧
    ((unlockStep cfg ⟨so, wf, false, true, n, false⟩ key w).1 = .fatal .writeTemp ∧
      (unlockStep cfg ⟨so, wf, false, true, n, false⟩ key w).2.tmpKey = some (key.take n)) ∧
    ((unlockStep cfg ⟨so, wf, false, false, n, false⟩ key w).1 = .returned ∧
      (unlockStep cfg ⟨so, wf, false, false, n, false⟩ key w).2.tmpKey = none) := by
  simp [unlockStep, UnlockLUKS, runDeferred]

/-! ## Read timeouts -/

set_option maxRecDepth 100000

/-- C9 (counterexample). In a session on a device that accepts everything, the four reads of
`GetAppNameVersion`, `SetChallenge`, `LoadChallenge` and `DeriveKey` are made under the
timeouts 2, 0, 0 and 0: the read of `DeriveKey` is made under the same timeout as those of
`SetChallenge` and `LoadChallenge`, not under an extended one. -/
theorem DeriveKey_read_timeout_not_extended :
    (DeriveKey sessionBeforeDerive).2.readLog = [2, 0, 0, 0] ∧
    (DeriveKey sessionBeforeDerive).2.readLog.getD 3 0
      = (DeriveKey sessionBeforeDerive).2.readLog.getD 1 0 ∧
    ¬ ((DeriveKey sessionBeforeDerive).2.readLog.getD 3 0 ≠ sessionBeforeDerive.readTimeout) := by
  decide

theorem timeouts_of_exchanges (tk : TillitisKey) (size : Int) :
    (DeriveKey tk).2.readTimeout = tk.readTimeout ∧
    (DeriveKey tk).2.readLog
      = tk.readLog ++ (if tk.writeErr tk.written.length then [] else [tk.readTimeout]) ∧
    (SetChallenge tk size).2.readTimeout = tk.readTimeout ∧
    (GetAppNameVersion tk).2.readLog
      = tk.readLog ++ (if tk.writeErr tk.written.length then [] else [2]) ∧
    (GetAppNameVersion tk).2.readTimeout
      = (if tk.writeErr tk.written.length then tk.readTimeout else 0) := by
  refine ⟨?_, ?_, ?_, ?_, ?_⟩
  · cases hw : tk.writeErr tk.written.length with
    | true => rw [DeriveKey_write_fails tk hw]
    | false =>
      cases hr : tk.response tk.readLog.length with
      | none => rw [DeriveKey_read_fails tk hw hr]; rfl
      | some rx => rw [DeriveKey_read tk rx hw hr]; rfl
  · cases hw : tk.writeErr tk.written.length with
    | true => rw [DeriveKey_write_fails tk hw]; simp
    | false =>
      cases hr : tk.response tk.readLog.length with
      | none => rw [DeriveKey_read_fails tk hw hr]; simp [TillitisKey.exchanged]
      | some rx => rw [DeriveKey_read tk rx hw hr]; simp [TillitisKey.exchanged]
  · simp only [SetChallenge, NewFrameBuf_cmdSetChallenge, TillitisKey.Write,
      TillitisKey.ReadFrame]
    split_ifs <;> try rfl
    all_goals (split <;> try split_ifs) <;> rfl
  · cases hw : tk.writeErr tk.written.length with
    | true => rw [GetAppNameVersion_write_fails tk hw]; simp
    | false =>
      cases hr : tk.response tk.readLog.length with
      | none => rw [GetAppNameVersion_read_fails tk hw hr]; simp [TillitisKey.afterGetNameVer]
      | some rx => rw [GetAppNameVersion_read tk rx hw hr]; simp [TillitisKey.afterGetNameVer]
  · cases hw : tk.writeErr tk.written.length with
    | true => rw [GetAppNameVersion_write_fails tk hw]; simp
    | false =>
      cases hr : tk.response tk.readLog.length with
      | none => rw [GetAppNameVersion_read_fails tk hw hr]; simp [TillitisKey.afterGetNameVer]
      | some rx => rw [GetAppNameVersion_read tk rx hw hr]; simp [TillitisKey.afterGetNameVer]

/-! ## The session of `main` -/

theorem GetAppNameVersion_written (tk : TillitisKey) :
    (GetAppNameVersion tk).2.written = tk.written ++ [[0x58, cmdGetNameVerCode]] := by
  cases hw : tk.writeErr tk.written.length with
  | true => rw [GetAppNameVersion_write_fails tk hw]
  | false =>
    cases hr : tk.response tk.readLog.length with
    | none => rw [GetAppNameVersion_read_fails tk hw hr]; rfl
    | some rx => rw [GetAppNameVersion_read tk rx hw hr]; rfl

theorem DeriveKey_written (tk : TillitisKey) :
    (DeriveKey tk).2.written = tk.written ++ [[0x58, cmdDeriveKeyCode]] := by
  cases hw : tk.writeErr tk.written.length with
  | true => rw [DeriveKey_write_fails tk hw]
  | false =>
    cases hr : tk.response tk.readLog.length with
    | none => rw [DeriveKey_read_fails tk hw hr]; rfl
    | some rx => rw [DeriveKey_read tk rx hw hr]; rfl

theorem SetChallenge_written (tk : TillitisKey) (size : Int) :
    (SetChallenge tk size).2.written = tk.written ∨
      (SetChallenge tk size).2.written = tk.written ++ [setChallengeFrame size] := by
  by_cases h : size ≤ 0 ∨ size > 256
  · rw [SetChallenge_invalid tk size h]
    exact Or.inl rfl
  · exact Or.inr (SetChallenge_valid tk size (by omega) (by omega)).2.1

theorem loadLoop_written (challenge : List Byte) :
    ∀ (fuel offset : Nat) (tk : TillitisKey), challenge.length - offset ≤ fuel →
      ∃ (r : Except Error Unit) (tk1 : TillitisKey) (chunks : List (List Byte)),
        loadLoop challenge fuel offset tk = some (r, tk1) ∧
        tk1.written = tk.written ++ chunks.map frameOfChunk ∧
        (r = .ok () →
          tk1 = tk.exchangedMany ((chunksOf fuel (challenge.drop offset)).map frameOfChunk))
  | 0, offset, tk, hfuel => by
    have : ¬ offset < challenge.length := by omega
    exact ⟨.ok (), tk, [], by simp [loadLoop, this], by simp,
      fun _ => by simp [chunksOf, exchangedMany_nil]⟩
  | fuel + 1, offset, tk, hfuel => by
    by_cases hlt : offset < challenge.length
    · have hne : challenge.drop offset ≠ [] := by
        intro h
        have := congrArg List.length h
        simp at this
        omega
      by_cases h0 : tk.accepts 0
      · obtain ⟨r, tk1, chunks, he, hw, hok⟩ := loadLoop_written challenge fuel
          (offset + (if challenge.length - offset < chunkSize
              then challenge.length - offset else chunkSize))
          (tk.exchanged (frameOfChunk ((challenge.drop offset).take chunkSize)))
          (by simp only [chunkSize]; split <;> omega)
        refine ⟨r, tk1, (challenge.drop offset).take chunkSize :: chunks, ?_, ?_, ?_⟩
        · simp only [loadLoop, hlt, if_true, loadChunk_ok challenge offset tk h0, he]
        · rw [hw]; simp [TillitisKey.exchanged]
        · intro hr
          rw [hok hr, drop_chunk, exchanged_exchangedMany, chunksOf_succ_of_ne_nil fuel _ hne]
          simp
      · obtain ⟨⟨e, he⟩, hw⟩ := loadChunk_bad challenge offset tk h0
        simp only [loadLoop, hlt, if_true]
        generalize loadChunk challenge offset tk = p at he hw
        obtain ⟨r, t⟩ := p
        simp only at he hw
        subst he
        exact ⟨.error e, t, [(challenge.drop offset).take chunkSize], rfl, by simp [hw],
          fun h => by cases h⟩
    · have hnil : challenge.drop offset = [] := List.drop_of_length_le (by omega)
      exact ⟨.ok (), tk, [], by simp [loadLoop, hlt], by simp,
        fun _ => by simp [hnil, chunksOf, exchangedMany_nil]⟩

theorem LoadChallenge_written (tk : TillitisKey) (challenge : List Byte) :
    (∃ chunks : List (List Byte),
      (LoadChallenge tk challenge).2.written = tk.written ++ chunks.map frameOfChunk) ∧
    ((LoadChallenge tk challenge).1 = .ok () →
      1 ≤ challenge.length ∧ challenge.length ≤ 256 ∧
      (LoadChallenge tk challenge).2
        = tk.exchangedMany ((chunksOf challenge.length challenge).map frameOfChunk)) := by
  by_cases hguard : challenge.length = 0 ∨ challenge.length > maxChallengeSize
  · simp only [LoadChallenge, hguard, if_true]
    exact ⟨⟨[], by simp⟩, fun h => by cases h⟩
  · obtain ⟨r, tk1, chunks, he, hw, hok⟩ :=
      loadLoop_written challenge challenge.length 0 tk (by omega)
    simp only [LoadChallenge, hguard, if_false, he]
    simp only [maxChallengeSize] at hguard
    refine ⟨⟨chunks, hw⟩, fun h => ⟨by omega, by omega, ?_⟩⟩
    simpa using hok h

theorem identityStep_frames (w : World) :
    newFrames w.tk (identityStep w).2 = [[0x58, cmdGetNameVerCode]] := by
  simp [newFrames, identityStep, GetAppNameVersion_written]

theorem setSizeStep_frames (challenge : List Byte) (w : World) :
    ∃ fs : List (List Byte), newFrames w.tk (setSizeStep challenge w).2
        = [0x58, cmdGetNameVerCode] :: fs ∧
      (setSizeStep challenge w).2.written = w.tk.written ++ [0x58, cmdGetNameVerCode] :: fs ∧
      (∀ f ∈ fs, f = setChallengeFrame challenge.length) ∧
      ((setSizeStep challenge w).1 = .ok () → fs = [setChallengeFrame challenge.length]) := by
  unfold setSizeStep identityStep
  by_cases h : (challenge.length : Int) ≤ 0 ∨ (challenge.length : Int) > 256
  · rw [SetChallenge_invalid _ _ h]
    exact ⟨[], by simp [newFrames, GetAppNameVersion_written],
      by simp [GetAppNameVersion_written], by simp, fun h => by cases h⟩
  · have hv := (SetChallenge_valid (GetAppNameVersion w.tk).2 challenge.length
      (by omega) (by omega)).2.1
    exact ⟨[setChallengeFrame challenge.length],
      by simp [newFrames, hv, GetAppNameVersion_written],
      by simp [hv, GetAppNameVersion_written], by simp, fun _ => rfl⟩

theorem loadStep_frames (challenge : List Byte) (w : World) :
    ∃ (fs : List (List Byte)) (chunks : List (List Byte)),
      newFrames w.tk (loadStep challenge w).2
        = [0x58, cmdGetNameVerCode] :: (fs ++ chunks.map frameOfChunk) ∧
      (∀ f ∈ fs, f = setChallengeFrame challenge.length) := by
  obtain ⟨fs, -, hw, hfs, -⟩ := setSizeStep_frames challenge w
  obtain ⟨⟨chunks, hc⟩, -⟩ := LoadChallenge_written (setSizeStep challenge w).2 challenge
  refine ⟨fs, chunks, ?_, hfs⟩
  unfold loadStep
  simp [newFrames, hc, hw]

theorem frame_codes :
    ([0x58, cmdGetNameVerCode] : List Byte).getD 1 0 ≠ cmdDeriveKeyCode ∧
    (∀ size, (setChallengeFrame size).getD 1 0 ≠ cmdDeriveKeyCode) ∧
    (∀ c, (frameOfChunk c).getD 1 0 ≠ cmdDeriveKeyCode) := by
  refine ⟨by decide, fun size => ?_, fun c => ?_⟩
  · simp [setChallengeFrame]; decide
  · simp [frameOfChunk]; decide

theorem loadStep_no_derive_frame (challenge : List Byte) (w : World) :
    ∀ f ∈ newFrames w.tk (loadStep challenge w).2, f.getD 1 0 ≠ cmdDeriveKeyCode := by
  obtain ⟨fs, chunks, h, hfs⟩ := loadStep_frames challenge w
  rw [h]
  intro f hf
  simp only [List.mem_cons, List.mem_append, List.mem_map] at hf
  rcases hf with hf | hf | ⟨c, -, hc⟩
  · rw [hf]; exact frame_codes.1
  · rw [hfs f hf]; exact frame_codes.2.1 _
  · rw [← hc]; exact frame_codes.2.2 c

theorem setSizeStep_no_derive_frame (challenge : List Byte) (w : World) :
    ∀ f ∈ newFrames w.tk (setSizeStep challenge w).2, f.getD 1 0 ≠ cmdDeriveKeyCode := by
  obtain ⟨fs, h, -, hfs, -⟩ := setSizeStep_frames challenge w
  rw [h]
  intro f hf
  simp only [List.mem_cons] at hf
  rcases hf with hf | hf
  · rw [hf]; exact frame_codes.1
  · rw [hfs f hf]; exact frame_codes.2.1 _

theorem identityStep_no_derive_frame (w : World) :
    ∀ f ∈ newFrames w.tk (identityStep w).2, f.getD 1 0 ≠ cmdDeriveKeyCode := by
  rw [identityStep_frames]
  intro f hf
  simp only [List.mem_singleton] at hf
  rw [hf]; exact frame_codes.1

theorem not_keyProduced_tk (w : World) (tk : TillitisKey) :
    ¬ keyProduced w { w with tk := tk } := by
  simp [keyProduced]

theorem mainSession_identity_fails (cfg : Config) (os : OS) (challenge : List Byte) (w : World)
    (e : Error) (h : (identityStep w).1 = .error e) :
    mainSession cfg os challenge w
      = (.fatal (.verifyApp e), { w with tk := (identityStep w).2 }) := by
  unfold identityStep at h
  simp only [mainSession, identityStep, h]

theorem mainSession_setSize_fails (cfg : Config) (os : OS) (challenge : List Byte) (w : World)
    (e : Error) (h1 : (identityStep w).1 = .ok ()) (h : (setSizeStep challenge w).1 = .error e) :
    mainSession cfg os challenge w
      = (.fatal (.setChallenge e), { w with tk := (setSizeStep challenge w).2 }) := by
  unfold setSizeStep identityStep at h
  unfold identityStep at h1
  simp only [mainSession, setSizeStep, identityStep, h1, h]

theorem mainSession_load_fails (cfg : Config) (os : OS) (challenge : List Byte) (w : World)
    (e : Error) (h1 : (identityStep w).1 = .ok ()) (h2 : (setSizeStep challenge w).1 = .ok ())
    (h : (loadStep challenge w).1 = .error e) :
    mainSession cfg os challenge w
      = (.fatal (.loadChallenge e), { w with tk := (loadStep challenge w).2 }) := by
  unfold loadStep setSizeStep identityStep at h
  unfold setSizeStep identityStep at h2
  unfold identityStep at h1
  simp only [mainSession, loadStep, setSizeStep, identityStep, h1, h2, h]

theorem runDeferred_written (b : Bool) (w : World) :
    (runDeferred b w).tk.written = w.tk.written := by
  cases b <;> rfl

theorem unlockStep_written (cfg : Config) (os : OS) (key : List Byte) (w : World) :
    (unlockStep cfg os key w).2.tk.written = w.tk.written := by
  unfold unlockStep UnlockLUKS
  split_ifs <;> simp [runDeferred_written]

theorem outputKey_written (cfg : Config) (os : OS) (key : List Byte) (w : World) :
    (outputKey cfg os key w).2.tk.written = w.tk.written := by
  unfold outputKey
  simp only
  split_ifs <;> simp [runDeferred_written, unlockStep_written]

theorem mainSession_all_ok_frames (cfg : Config) (os : OS) (challenge : List Byte) (w : World)
    (h1 : (identityStep w).1 = .ok ()) (h2 : (setSizeStep challenge w).1 = .ok ())
    (h3 : (loadStep challenge w).1 = .ok ()) :
    newFrames w.tk (mainSession cfg os challenge w).2.tk
      = [0x58, cmdGetNameVerCode] :: setChallengeFrame challenge.length ::
          ((chunksOf challenge.length challenge).map frameOfChunk
            ++ [[0x58, cmdDeriveKeyCode]]) := by
  obtain ⟨fs, -, hw, -, hfs⟩ := setSizeStep_frames challenge w
  have hfs2 := hfs h2
  subst hfs2
  have hl := (LoadChallenge_written (setSizeStep challenge w).2 challenge).2 h3
  have hl3 : (loadStep challenge w).2.written
      = w.tk.written ++ [0x58, cmdGetNameVerCode] :: setChallengeFrame challenge.length ::
          (chunksOf challenge.length challenge).map frameOfChunk := by
    unfold loadStep
    rw [hl.2.2]
    simp [TillitisKey.exchangedMany, hw]
  have hd := DeriveKey_written (loadStep challenge w).2
  have hout : (mainSession cfg os challenge w).2.tk.written
      = (DeriveKey (loadStep challenge w).2).2.written := by
    have h1a : (GetAppNameVersion w.tk).1 = .ok () := h1
    have h2a : (SetChallenge (GetAppNameVersion w.tk).2 challenge.length).1 = .ok () := h2
    have h3a : (LoadChallenge (SetChallenge (GetAppNameVersion w.tk).2 challenge.length).2
        challenge).1 = .ok () := h3
    simp only [mainSession, h1a, h2a, h3a, loadStep, setSizeStep, identityStep]
    split
    · rfl
    · rw [outputKey_written]
  rw [newFrames, hout, hd, hl3]
  simp

/-- C10. A key is produced only after the whole sequence succeeded.  In the session run by
`main`, on any scripted transport: if the identity check fails, or it succeeds and
`SetChallenge` fails, or both succeed and `LoadChallenge` fails, then `main` ends in
`le.Fatalf` at that step with the connection as that step left it (no later frame is
written) and with standard output, files, temporary key file and `cryptsetup` runs
untouched.  Hence if a derive-key frame was written or any key material was put out, the
identity check, `SetChallenge` and `LoadChallenge` all returned success; and when they did,
the frames written are, in this order, the identity query, the set-challenge-size frame, the
frames of all chunks of the challenge and then the derive-key frame. -/
theorem mainSession_key_only_after_full_sequence (cfg : Config) (os : OS)
    (challenge : List Byte) (w : World) :
    (∀ e, (identityStep w).1 = .error e →
      mainSession cfg os challenge w
        = (.fatal (.verifyApp e), { w with tk := (identityStep w).2 })) ∧
    (∀ e, (identityStep w).1 = .ok () → (setSizeStep challenge w).1 = .error e →
      mainSession cfg os challenge w
        = (.fatal (.setChallenge e), { w with tk := (setSizeStep challenge w).2 })) ∧
    (∀ e, (identityStep w).1 = .ok () → (setSizeStep challenge w).1 = .ok () →
      (loadStep challenge w).1 = .error e →
      mainSession cfg os challenge w
        = (.fatal (.loadChallenge e), { w with tk := (loadStep challenge w).2 })) ∧
    (((∃ f ∈ newFrames w.tk (mainSession cfg os challenge w).2.tk,
          f.getD 1 0 = cmdDeriveKeyCode) ∨
        keyProduced w (mainSession cfg os challenge w).2) →
      (identityStep w).1 = .ok () ∧ (setSizeStep challenge w).1 = .ok () ∧
        (loadStep challenge w).1 = .ok ()) ∧
    ((identityStep w).1 = .ok () → (setSizeStep challenge w).1 = .ok () →
      (loadStep challenge w).1 = .ok () →
      newFrames w.tk (mainSession cfg os challenge w).2.tk
        = [0x58, cmdGetNameVerCode] :: setChallengeFrame challenge.length ::
            ((chunksOf challenge.length challenge).map frameOfChunk
              ++ [[0x58, cmdDeriveKeyCode]])) := by
  refine ⟨fun e h => mainSession_identity_fails cfg os challenge w e h,
    fun e h1 h => mainSession_setSize_fails cfg os challenge w e h1 h,
    fun e h1 h2 h => mainSession_load_fails cfg os challenge w e h1 h2 h, ?_,
    mainSession_all_ok_frames cfg os challenge w⟩
  intro hkey
  cases h1 : (identityStep w).1 with
  | error e =>
    exfalso
    rw [mainSession_identity_fails cfg os challenge w e h1] at hkey
    rcases hkey with ⟨f, hf, hc⟩ | hk
    · exact identityStep_no_derive_frame w f hf hc
    · exact not_keyProduced_tk w _ hk
  | ok u1 =>
    cases h2 : (setSizeStep challenge w).1 with
    | error e =>
      exfalso
      rw [mainSession_setSize_fails cfg os challenge w e h1 h2] at hkey
      rcases hkey with ⟨f, hf, hc⟩ | hk
      · exact setSizeStep_no_derive_frame challenge w f hf hc
      · exact not_keyProduced_tk w _ hk
    | ok u2 =>
      cases h3 : (loadStep challenge w).1 with
      | error e =>
        exfalso
        rw [mainSession_load_fails cfg os challenge w e h1 h2 h3] at hkey
        rcases hkey with ⟨f, hf, hc⟩ | hk
        · exact loadStep_no_derive_frame challenge w f hf hc
        · exact not_keyProduced_tk w _ hk
      | ok u3 => exact ⟨rfl, rfl, rfl⟩

/-- Witness of C10: on a device that accepts everything, the session for the 19-byte
challenge writes the identity query, the size frame, one chunk frame and the derive-key
frame, in this order. -/
theorem mainSession_key_only_after_full_sequence_witness :
    newFrames world0.tk (mainSession cfgStdout osOK challenge19 world0).2.tk
      = [0x58, cmdGetNameVerCode] :: setChallengeFrame challenge19.length ::
          ((chunksOf challenge19.length challenge19).map frameOfChunk
            ++ [[0x58, cmdDeriveKeyCode]]) :=
  (mainSession_key_only_after_full_sequence cfgStdout osOK challenge19 world0).2.2.2.2
    (by decide) (by decide) (by decide)

/-! ## Set-challenge-size request encoding -/

theorem byteOfInt_val (x : Int) : ((byteOfInt x).val : Int) = x % 256 := by
  simp only [byteOfInt, Fin.ofNat, Fin.val_mk]
  omega

theorem shiftRight_nonneg_eq_div (size : Int) (k : Nat) (h : 0 ≤ size) :
    size >>> (k : Int) = size / ((2 ^ k : Nat) : Int) := by
  obtain ⟨n, rfl⟩ := Int.eq_ofNat_of_zero_le h
  rw [Int.shiftRight_coe_nat, Nat.shiftRight_eq_div_pow]
  norm_cast

theorem setChallengeFrame_le32 (size : Int) (h1 : 1 ≤ size) (h2 : size ≤ 256) :
    (le32 ((setChallengeFrame size).getD 2 0) ((setChallengeFrame size).getD 3 0)
      ((setChallengeFrame size).getD 4 0) ((setChallengeFrame size).getD 5 0) : Int) = size := by
  have e0 := byteOfInt_val size
  have e1 := byteOfInt_val (size >>> 8)
  have e2 := byteOfInt_val (size >>> 16)
  have e3 := byteOfInt_val (size >>> 24)
  have s1 : size >>> 8 = size / 256 := by
    have := shiftRight_nonneg_eq_div size 8 (by omega)
    norm_num at this
    exact this
  have s2 : size >>> 16 = size / 65536 := by
    have := shiftRight_nonneg_eq_div size 16 (by omega)
    norm_num at this
    exact this
  have s3 : size >>> 24 = size / 16777216 := by
    have := shiftRight_nonneg_eq_div size 24 (by omega)
    norm_num at this
    exact this
  simp only [setChallengeFrame, le32, List.cons_append, List.nil_append, List.getD_cons_succ,
    List.getD_cons_zero]
  push_cast
  omega

theorem getD_replicate_zero : ∀ (n j : Nat), (List.replicate n (0 : Byte)).getD j 0 = 0
  | 0, _ => rfl
  | _ + 1, 0 => rfl
  | n + 1, j + 1 => by
    rw [List.replicate_succ, List.getD_cons_succ]
    exact getD_replicate_zero n j

theorem setChallengeFrame_padding (size : Int) (i : Nat) (h6 : 6 ≤ i) :
    (setChallengeFrame size).getD i 0 = 0 := by
  obtain ⟨j, rfl⟩ : ∃ j, i = j + 6 := ⟨i - 6, by omega⟩
  simp only [setChallengeFrame, List.cons_append, List.nil_append, List.getD_cons_succ]
  exact getD_replicate_zero 27 j

theorem setChallengeFrame_length (size : Int) : (setChallengeFrame size).length = 33 := by
  simp [setChallengeFrame]

/-- C11. Set-challenge-size request encoding: for a size from 1 to 256 the one frame that
`SetChallenge` writes has 33 bytes, holds in `tx[2:6]` the little-endian encoding of the size
(the four bytes decode, as a little-endian unsigned integer, to the size; 256 is encoded as
00 01 00 00), and is zero in every byte after `tx[5]`. -/
theorem SetChallenge_request_encoding (tk : TillitisKey) (size : Int)
    (h1 : 1 ≤ size) (h2 : size ≤ 256) :
    ∃ tx : List Byte, newFrames tk (SetChallenge tk size).2 = [tx] ∧
      tx.length = 33 ∧ tx.getD 1 0 = cmdSetChallengeCode ∧
      (le32 (tx.getD 2 0) (tx.getD 3 0) (tx.getD 4 0) (tx.getD 5 0) : Int) = size ∧
      (∀ i, 6 ≤ i → i < tx.length → tx.getD i 0 = 0) ∧
      tx.drop 6 = List.replicate 27 0 ∧
      (size = 256 → slice tx 2 6 = [0, 1, 0, 0]) := by
  obtain ⟨-, hw, -, -⟩ := SetChallenge_valid tk size h1 h2
  refine ⟨setChallengeFrame size, by simp [newFrames, hw], setChallengeFrame_length size, rfl,
    setChallengeFrame_le32 size h1 h2, fun i h6 _ => setChallengeFrame_padding size i h6, rfl, ?_⟩
  intro h
  subst h
  decide

/-- Witness of C11: the frames for sizes 256 and 19. -/
theorem SetChallenge_request_encoding_witness :
    (∃ tx : List Byte, newFrames ackDevice (SetChallenge ackDevice 256).2 = [tx] ∧
      tx.length = 33 ∧ tx.getD 1 0 = cmdSetChallengeCode ∧
      (le32 (tx.getD 2 0) (tx.getD 3 0) (tx.getD 4 0) (tx.getD 5 0) : Int) = 256 ∧
      (∀ i, 6 ≤ i → i < tx.length → tx.getD i 0 = 0) ∧
      tx.drop 6 = List.replicate 27 0 ∧
      ((256 : Int) = 256 → slice tx 2 6 = [0, 1, 0, 0])) ∧
    (∃ tx : List Byte, newFrames ackDevice (SetChallenge ackDevice 19).2 = [tx] ∧
      (le32 (tx.getD 2 0) (tx.getD 3 0) (tx.getD 4 0) (tx.getD 5 0) : Int) = 19) := by
  refine ⟨SetChallenge_request_encoding ackDevice 256 (by decide) (by decide), ?_⟩
  obtain ⟨tx, h, -, -, hle, -⟩ :=
    SetChallenge_request_encoding ackDevice 19 (by decide) (by decide)
  exact ⟨tx, h, hle⟩

/-! ## Length of the derived USS -/

/-- C12. Derived USS length: whatever the key-derivation function returns, a secret that
`deriveUSSFromPassword` returns without error has exactly 32 bytes and is the output of the
key-derivation function for the given password, salt and iteration count with length 32.
When the key-derivation function returns as many bytes as it is asked for, as PBKDF2 does,
every non-empty password, non-empty salt and iteration count of at least 10000 gives that
32-byte output, from a single call. -/
theorem deriveUSSFromPassword_length (kdf : KdfCall → List Byte) (password salt : List Byte)
    (iterations : Int) :
    (∀ uss, (deriveUSSFromPassword kdf password salt iterations).1 = .ok uss →
      uss.length = 32 ∧ uss = kdf ⟨password, salt, iterations, 32⟩) ∧
    ((∀ c, (kdf c).length = c.keyLen) → password ≠ [] → salt ≠ [] → 10000 ≤ iterations →
      deriveUSSFromPassword kdf password salt iterations
        = (.ok (kdf ⟨password, salt, iterations, 32⟩), [⟨password, salt, iterations, 32⟩]) ∧
      (kdf ⟨password, salt, iterations, 32⟩).length = 32) := by
  constructor
  · intro uss h
    unfold deriveUSSFromPassword at h
    simp only [ussLength] at h
    split_ifs at h with h1 h2 h3 h4
    cases h
    exact ⟨not_not.mp h4, rfl⟩
  · intro hkdf hp hs hi
    have hs0 : ¬ salt.length = 0 := fun h => hs (List.length_eq_zero.mp h)
    have hi1 : ¬ iterations < 10000 := by omega
    have hl : (kdf ⟨password, salt, iterations, 32⟩).length = 32 := hkdf _
    simp [deriveUSSFromPassword, hp, hs0, hi1, ussLength, hl]

/-- Witness of C12: with a key-derivation function that returns the length asked for, a
valid input gives a 32-byte secret. -/
theorem deriveUSSFromPassword_length_witness :
    (deriveUSSFromPassword zeroKdf [0x70] [0x73] 100000).1 = .ok (List.replicate 32 0) ∧
    (List.replicate 32 (0 : Byte)).length = 32 := by
  have h := (deriveUSSFromPassword_length zeroKdf [0x70] [0x73] 100000).2
    (fun c => by simp [zeroKdf]) (by decide) (by decide) (by decide)
  have h1 := (deriveUSSFromPassword_length zeroKdf [0x70] [0x73] 100000).1
    (List.replicate 32 0) (by rw [h.1]; rfl)
  exact ⟨by rw [h.1]; rfl, h1.1⟩

/-! ## Chunk count and sizes -/

theorem chunksOf_nil (fuel : Nat) : chunksOf fuel [] = [] := by
  cases fuel <;> simp [chunksOf]

theorem chunksOf_fuel : ∀ (fuel fuel1 : Nat) (l : List Byte), l.length ≤ fuel →
    l.length ≤ fuel1 → chunksOf fuel l = chunksOf fuel1 l
  | 0, fuel1, l, h, _ => by
    have : l = [] := List.length_eq_zero.mp (by omega)
    rw [this, chunksOf_nil, chunksOf_nil]
  | fuel + 1, fuel1, l, h, h1 => by
    by_cases hl : l = []
    · rw [hl, chunksOf_nil, chunksOf_nil]
    · have hpos := length_pos_of_ne_nil l hl
      obtain ⟨f1, rfl⟩ : ∃ f1, fuel1 = f1 + 1 := ⟨fuel1 - 1, by omega⟩
      rw [chunksOf_succ_of_ne_nil fuel l hl, chunksOf_succ_of_ne_nil f1 l hl,
        chunksOf_fuel fuel f1 _ (by simp [chunkSize]; omega) (by simp [chunkSize]; omega)]

theorem chunksOf_getElem? : ∀ (fuel : Nat) (l : List Byte) (i : Nat) (c : List Byte),
    (chunksOf fuel l)[i]? = some c → c = (l.drop (127 * i)).take 127
  | 0, l, i, c, h => by simp [chunksOf] at h
  | fuel + 1, l, i, c, h => by
    by_cases hl : l = []
    · simp [chunksOf, hl] at h
    · rw [chunksOf_succ_of_ne_nil fuel l hl] at h
      cases i with
      | zero =>
        simp only [List.getElem?_cons_zero, Option.some.injEq] at h
        rw [← h]
        simp [chunkSize]
      | succ i =>
        rw [List.getElem?_cons_succ] at h
        have := chunksOf_getElem? fuel _ i c h
        rw [this, List.drop_drop]
        simp only [chunkSize]
        congr 2
        omega

theorem chunk_length_at (l : List Byte) (i : Nat) (c : List Byte)
    (hc : c = (l.drop (127 * i)).take 127) :
    (i + 1 < (l.length + 126) / 127 → c.length = 127) ∧
    (i + 1 = (l.length + 126) / 127 → c.length = l.length - 127 * ((l.length + 126) / 127 - 1)) := by
  subst hc
  simp only [List.length_take, List.length_drop]
  constructor <;> intro h <;> omega

/-- C13. Chunk count and sizes: for a challenge of `n` bytes, `n` from 1 to 256, on a
transport that accepts every load-challenge exchange, `LoadChallenge` returns success after
writing exactly `ceil(n / 127)` frames, at most 3; the `i`-th frame carries the chunk
`challenge[127*i : 127*i+127]` cut at the end of the challenge, which has 127 bytes for
every frame but the last and `n - 127 * (ceil(n / 127) - 1)` bytes, between 1 and 127, for
the last.  The loop ends within `n` passes, and more passes allowed change nothing. -/
theorem LoadChallenge_chunk_count_and_sizes (tk : TillitisKey) (challenge : List Byte)
    (hlen1 : 1 ≤ challenge.length) (hlen2 : challenge.length ≤ 256)
    (hacc : ∀ i, i < (challenge.length + 126) / 127 → tk.accepts i) :
    (LoadChallenge tk challenge).1 = .ok () ∧
    (∀ fuel, challenge.length ≤ fuel →
      loadLoop challenge fuel 0 tk = some (LoadChallenge tk challenge)) ∧
    ∃ chunks : List (List Byte),
      newFrames tk (LoadChallenge tk challenge).2 = chunks.map frameOfChunk ∧
      chunks.length = (challenge.length + 126) / 127 ∧ chunks.length ≤ 3 ∧
      (∀ i c, chunks[i]? = some c →
        c = (challenge.drop (127 * i)).take 127 ∧
        (i + 1 < chunks.length → c.length = 127) ∧
        (i + 1 = chunks.length →
          c.length = challenge.length - 127 * ((challenge.length + 126) / 127 - 1))) ∧
      1 ≤ challenge.length - 127 * ((challenge.length + 126) / 127 - 1) ∧
      challenge.length - 127 * ((challenge.length + 126) / 127 - 1) ≤ 127 := by
  have hcount := chunksOf_length challenge.length challenge (Nat.le_refl _)
  have hok := LoadChallenge_ok tk challenge hlen1 hlen2 hacc
  refine ⟨by rw [hok], ?_, chunksOf challenge.length challenge, ?_, hcount, ?_, ?_, ?_, ?_⟩
  · intro fuel hfuel
    have hloop := loadLoop_ok challenge fuel 0 tk (by omega)
      (by
        intro i hi
        rw [List.drop_zero, chunksOf_length _ _ hfuel] at hi
        exact hacc i hi)
    rw [hloop, hok, List.drop_zero, chunksOf_fuel fuel challenge.length challenge hfuel
      (Nat.le_refl _)]
  · rw [hok]
    exact newFrames_exchangedMany _ _
  · rw [hcount]; omega
  · intro i c hc
    have hcs := chunksOf_getElem? _ _ i c hc
    have h := chunk_length_at challenge i c hcs
    rw [hcount]
    exact ⟨hcs, h.1, h.2⟩
  · omega
  · omega

theorem challenge19_length : challenge19.length = 19 := by
  decide

/-- Witness of C13: a 19-byte challenge is carried by one frame, a 200-byte challenge by two
frames whose chunks have 127 and 73 bytes, in this order. -/
theorem LoadChallenge_chunk_count_and_sizes_witness :
    (newFrames ackDevice (LoadChallenge ackDevice challenge19).2).length = 1 ∧
    ∃ chunks : List (List Byte),
      newFrames ackDevice (LoadChallenge ackDevice challenge200).2 = chunks.map frameOfChunk ∧
      chunks.map List.length = [127, 73] := by
  obtain ⟨-, -, chunks1, hf1, hn1, -⟩ := LoadChallenge_chunk_count_and_sizes ackDevice challenge19
    (by rw [challenge19_length]; omega) (by rw [challenge19_length]; omega)
    (fun i _ => ackDevice_accepts i)
  obtain ⟨-, -, chunks2, hf2, hn2, -, hsz, -⟩ :=
    LoadChallenge_chunk_count_and_sizes ackDevice challenge200
      (by rw [challenge200_length]; omega) (by rw [challenge200_length]; omega)
      (fun i _ => ackDevice_accepts i)
  rw [challenge19_length] at hn1
  rw [challenge200_length] at hn2 hsz
  refine ⟨by rw [hf1, List.length_map, hn1], chunks2, hf2, ?_⟩
  match chunks2, hn2, hsz with
  | [c0, c1], _, hsz =>
    have h0 := (hsz 0 c0 rfl).2.1 (by simp)
    have h1 := (hsz 1 c1 rfl).2.2 (by simp)
    simp [h0, h1]

/-! ## Load-challenge frame layout -/

theorem loadLoop_frames (challenge : List Byte) :
    ∀ (fuel offset : Nat) (tk : TillitisKey), challenge.length - offset ≤ fuel →
      ∃ (r : Except Error Unit) (tk1 : TillitisKey) (k : Nat),
        loadLoop challenge fuel offset tk = some (r, tk1) ∧
        tk1.written = tk.written
          ++ ((chunksOf fuel (challenge.drop offset)).take k).map frameOfChunk ∧
        (offset < challenge.length → 1 ≤ k)
  | 0, offset, tk, hfuel => by
    have : ¬ offset < challenge.length := by omega
    exact ⟨.ok (), tk, 0, by simp [loadLoop, this], by simp, fun h => absurd h this⟩
  | fuel + 1, offset, tk, hfuel => by
    by_cases hlt : offset < challenge.length
    · have hne : challenge.drop offset ≠ [] := by
        intro h
        have := congrArg List.length h
        simp at this
        omega
      rw [chunksOf_succ_of_ne_nil fuel _ hne]
      by_cases h0 : tk.accepts 0
      · obtain ⟨r, tk1, k, he, hw, -⟩ := loadLoop_frames challenge fuel
          (offset + (if challenge.length - offset < chunkSize
              then challenge.length - offset else chunkSize))
          (tk.exchanged (frameOfChunk ((challenge.drop offset).take chunkSize)))
          (by simp only [chunkSize]; split <;> omega)
        refine ⟨r, tk1, k + 1, ?_, ?_, fun _ => by omega⟩
        · simp only [loadLoop, hlt, if_true, loadChunk_ok challenge offset tk h0, he]
        · rw [hw, drop_chunk]
          simp [TillitisKey.exchanged]
      · obtain ⟨⟨e, he⟩, hw⟩ := loadChunk_bad challenge offset tk h0
        simp only [loadLoop, hlt, if_true]
        generalize loadChunk challenge offset tk = p at he hw
        obtain ⟨r, t⟩ := p
        simp only at he hw
        subst he
        exact ⟨.error e, t, 1, rfl, by simp [hw], fun _ => Nat.le_refl 1⟩
    · exact ⟨.ok (), tk, 0, by simp [loadLoop, hlt], by simp, fun h => absurd h hlt⟩

theorem LoadChallenge_frames (tk : TillitisKey) (challenge : List Byte) :
    ∃ k, newFrames tk (LoadChallenge tk challenge).2
        = ((chunksOf challenge.length challenge).take k).map frameOfChunk ∧
      (1 ≤ challenge.length → challenge.length ≤ 256 → 1 ≤ k) := by
  by_cases hguard : challenge.length = 0 ∨ challenge.length > maxChallengeSize
  · refine ⟨0, ?_, ?_⟩
    · simp only [LoadChallenge, hguard, if_true, newFrames]
      simp
    · intro h1 h2
      simp only [maxChallengeSize] at hguard
      omega
  · obtain ⟨r, tk1, k, he, hw, hk⟩ :=
      loadLoop_frames challenge challenge.length 0 tk (by omega)
    refine ⟨k, ?_, fun h1 _ => hk (by omega)⟩
    simp only [LoadChallenge, hguard, if_false, he, newFrames, hw]
    simp

theorem frameOfChunk_length (c : List Byte) (h : c.length ≤ 127) :
    (frameOfChunk c).length = 129 := by
  simp [frameOfChunk]
  omega

theorem frameOfChunk_padding (c : List Byte) (j : Nat) (hj : 2 + c.length ≤ j) :
    (frameOfChunk c).getD j 0 = 0 := by
  obtain ⟨i, rfl⟩ : ∃ i, j = i + 1 + 1 := ⟨j - 2, by omega⟩
  simp only [frameOfChunk, List.getD_cons_succ]
  rw [List.getD_append_right _ _ _ _ (by omega)]
  exact getD_replicate_zero _ _

theorem frameOfChunk_drop (c : List Byte) :
    (frameOfChunk c).drop (2 + c.length) = List.replicate (127 - c.length) 0 := by
  simp [frameOfChunk, Nat.add_comm 2]

/-- C14. Load-challenge frame layout: the buffer that `NewFrameBuf` hands to `LoadChallenge`
has 129 bytes, zero after the header and command-code bytes.  On any transport, every frame
that `LoadChallenge` writes for a challenge of 1 to 256 bytes is that buffer with a chunk
`challenge[127*i : 127*i+127]` (cut at the end of the challenge) copied to `tx[2:]`: the
chunk has between 1 and 127 bytes, so the 127 bytes after the command code hold all of it,
the frame has the chunk at `tx[2 : 2+len(chunk)]` and zero in every byte from
`tx[2+len(chunk)]` to the end of its 129 bytes. -/
theorem LoadChallenge_frame_layout (tk : TillitisKey) (challenge : List Byte)
    (hlen1 : 1 ≤ challenge.length) (hlen2 : challenge.length ≤ 256) :
    NewFrameBuf cmdLoadChallenge 2
      = some (0x5b :: cmdLoadChallengeCode :: List.replicate 127 0) ∧
    (1 ≤ (newFrames tk (LoadChallenge tk challenge).2).length) ∧
    ∀ tx ∈ newFrames tk (LoadChallenge tk challenge).2,
      ∃ (i : Nat) (chunk : List Byte),
        chunk = (challenge.drop (127 * i)).take 127 ∧
        1 ≤ chunk.length ∧ chunk.length ≤ 127 ∧
        tx = copyAt (0x5b :: cmdLoadChallengeCode :: List.replicate 127 0) 2 chunk ∧
        tx.length = 129 ∧
        slice tx 2 (2 + chunk.length) = chunk ∧
        (∀ j, 2 + chunk.length ≤ j → j < 129 → tx.getD j 0 = 0) ∧
        tx.drop (2 + chunk.length) = List.replicate (127 - chunk.length) 0 := by
  refine ⟨NewFrameBuf_cmdLoadChallenge, ?_, ?_⟩
  · obtain ⟨k, hk, hk1⟩ := LoadChallenge_frames tk challenge
    have hc := chunksOf_length challenge.length challenge (Nat.le_refl _)
    have := hk1 hlen1 hlen2
    rw [hk, List.length_map, List.length_take, hc]
    omega
  · intro tx htx
    obtain ⟨k, hk, -⟩ := LoadChallenge_frames tk challenge
    rw [hk, List.mem_map] at htx
    obtain ⟨c, hc, rfl⟩ := htx
    have hmem := List.mem_of_mem_take hc
    have hlen := chunksOf_mem_length _ _ c hmem
    obtain ⟨i, hi⟩ := List.mem_iff_getElem?.mp hmem
    refine ⟨i, c, chunksOf_getElem? _ _ i c hi, hlen.1, hlen.2, ?_,
      frameOfChunk_length c hlen.2, slice_frameOfChunk c,
      fun j hj _ => frameOfChunk_padding c j hj, frameOfChunk_drop c⟩
    rw [copyAt_frame _ _ _ hlen.2]
    rfl

/-- Witness of C14: the frames written for the 200-byte challenge on a device that rejects
the second chunk. -/
theorem LoadChallenge_frame_layout_witness :
    1 ≤ (newFrames nakSecondDevice (LoadChallenge nakSecondDevice challenge200).2).length ∧
    ∀ tx ∈ newFrames nakSecondDevice (LoadChallenge nakSecondDevice challenge200).2,
      ∃ (i : Nat) (chunk : List Byte),
        chunk = (challenge200.drop (127 * i)).take 127 ∧
        1 ≤ chunk.length ∧ chunk.length ≤ 127 ∧
        tx = copyAt (0x5b :: cmdLoadChallengeCode :: List.replicate 127 0) 2 chunk ∧
        tx.length = 129 ∧
        slice tx 2 (2 + chunk.length) = chunk ∧
        (∀ j, 2 + chunk.length ≤ j → j < 129 → tx.getD j 0 = 0) ∧
        tx.drop (2 + chunk.length) = List.replicate (127 - chunk.length) 0 :=
  (LoadChallenge_frame_layout nakSecondDevice challenge200
    (by rw [challenge200_length]; omega) (by rw [challenge200_length]; omega)).2

/-! ## Read timeouts over the session -/

theorem sameTimeout_refl (tk : TillitisKey) : tk.sameTimeout tk :=
  ⟨rfl, 0, by simp⟩

theorem sameTimeout_trans (a b c : TillitisKey) (h1 : a.sameTimeout b) (h2 : b.sameTimeout c) :
    a.sameTimeout c := by
  obtain ⟨t1, m1, l1⟩ := h1
  obtain ⟨t2, m2, l2⟩ := h2
  refine ⟨t2.trans t1, m1 + m2, ?_⟩
  rw [l2, l1, t1, List.append_assoc, ← List.replicate_add]

theorem sameTimeout_of_readLog (tk tk1 : TillitisKey) (b : Bool)
    (ht : tk1.readTimeout = tk.readTimeout)
    (hl : tk1.readLog = tk.readLog ++ (if b then [] else [tk.readTimeout])) :
    tk.sameTimeout tk1 := by
  refine ⟨ht, if b then 0 else 1, ?_⟩
  cases b <;> simpa using hl

theorem DeriveKey_sameTimeout (tk : TillitisKey) : tk.sameTimeout (DeriveKey tk).2 :=
  sameTimeout_of_readLog tk _ (tk.writeErr tk.written.length)
    (timeouts_of_exchanges tk 0).1 (timeouts_of_exchanges tk 0).2.1

theorem SetChallenge_readLog (tk : TillitisKey) (size : Int) :
    (SetChallenge tk size).2.readLog = tk.readLog ++
      (if (size ≤ 0 ∨ size > 256) ∨ tk.writeErr tk.written.length = true then []
        else [tk.readTimeout]) := by
  by_cases h : size ≤ 0 ∨ size > 256
  · rw [SetChallenge_invalid tk size h]
    simp [h]
  · have hguard : ¬ (size ≤ 0 ∨ size > (maxChallengeSize : Int)) := by
      simp only [maxChallengeSize]; push_cast; exact h
    simp only [SetChallenge, hguard, if_false, NewFrameBuf_cmdSetChallenge, TillitisKey.Write,
      TillitisKey.ReadFrame, h, false_or]
    cases hw : tk.writeErr tk.written.length with
    | true => simp
    | false =>
      simp only [Bool.not_false, Bool.true_eq_false, Bool.false_eq_true, if_false]
      split <;> (try split_ifs) <;> rfl

theorem SetChallenge_sameTimeout (tk : TillitisKey) (size : Int) :
    tk.sameTimeout (SetChallenge tk size).2 := by
  refine ⟨(timeouts_of_exchanges tk size).2.2.1, ?_⟩
  rw [SetChallenge_readLog]
  split_ifs
  · exact ⟨0, by simp⟩
  · exact ⟨1, by simp⟩

theorem loadChunk_sameTimeout (challenge : List Byte) (offset : Nat) (tk : TillitisKey) :
    tk.sameTimeout (loadChunk challenge offset tk).2 := by
  simp only [loadChunk, NewFrameBuf_cmdLoadChallenge, TillitisKey.Write, TillitisKey.ReadFrame]
  cases hw : tk.writeErr tk.written.length with
  | true => exact ⟨rfl, 0, by simp⟩
  | false =>
    simp only [Bool.not_false, Bool.true_eq_false, if_false]
    split <;> (try split_ifs) <;> exact ⟨rfl, 1, by simp⟩

theorem loadLoop_sameTimeout (challenge : List Byte) :
    ∀ (fuel offset : Nat) (tk : TillitisKey) (r : Except Error Unit) (tk1 : TillitisKey),
      loadLoop challenge fuel offset tk = some (r, tk1) → tk.sameTimeout tk1
  | 0, offset, tk, r, tk1, h => by
    simp only [loadLoop] at h
    split_ifs at h
    cases h
    exact sameTimeout_refl tk
  | fuel + 1, offset, tk, r, tk1, h => by
    simp only [loadLoop] at h
    split_ifs at h
    · have hq := loadChunk_sameTimeout challenge offset tk
      generalize loadChunk challenge offset tk = p at h hq
      obtain ⟨res, t⟩ := p
      cases res with
      | error e =>
        simp only [Option.some.injEq, Prod.mk.injEq] at h
        rw [← h.2]
        exact hq
      | ok offset1 =>
        simp only at h
        exact sameTimeout_trans _ _ _ hq (loadLoop_sameTimeout challenge fuel offset1 t r tk1 h)
    · cases h
      exact sameTimeout_refl tk

theorem LoadChallenge_sameTimeout (tk : TillitisKey) (challenge : List Byte) :
    tk.sameTimeout (LoadChallenge tk challenge).2 := by
  unfold LoadChallenge
  split_ifs
  · exact sameTimeout_refl tk
  · split
    · rename_i res h
      exact loadLoop_sameTimeout challenge _ _ tk res.1 res.2 h
    · exact sameTimeout_refl tk

theorem outputKey_timeouts (cfg : Config) (os : OS) (key : List Byte) (w : World) :
    (outputKey cfg os key w).2.tk.readLog = w.tk.readLog ∧
    (outputKey cfg os key w).2.tk.readTimeout = w.tk.readTimeout := by
  have hd : ∀ (b : Bool) (v : World), (runDeferred b v).tk.readLog = v.tk.readLog ∧
      (runDeferred b v).tk.readTimeout = v.tk.readTimeout := by
    intro b v; cases b <;> exact ⟨rfl, rfl⟩
  have hu : ∀ v : World, (unlockStep cfg os key v).2.tk.readLog = v.tk.readLog ∧
      (unlockStep cfg os key v).2.tk.readTimeout = v.tk.readTimeout := by
    intro v
    unfold unlockStep UnlockLUKS
    split_ifs <;> simp [hd]
  unfold outputKey
  simp only
  split_ifs <;> simp [hd, hu]

theorem mainSession_all_ok_tk (cfg : Config) (os : OS) (challenge : List Byte) (w : World)
    (h1 : (identityStep w).1 = .ok ()) (h2 : (setSizeStep challenge w).1 = .ok ())
    (h3 : (loadStep challenge w).1 = .ok ()) :
    (mainSession cfg os challenge w).2.tk.readLog
        = (DeriveKey (loadStep challenge w).2).2.readLog ∧
    (mainSession cfg os challenge w).2.tk.readTimeout
        = (DeriveKey (loadStep challenge w).2).2.readTimeout := by
  have h1a : (GetAppNameVersion w.tk).1 = .ok () := h1
  have h2a : (SetChallenge (GetAppNameVersion w.tk).2 challenge.length).1 = .ok () := h2
  have h3a : (LoadChallenge (SetChallenge (GetAppNameVersion w.tk).2 challenge.length).2
      challenge).1 = .ok () := h3
  simp only [mainSession, h1a, h2a, h3a, loadStep, setSizeStep, identityStep]
  split
  · exact ⟨rfl, rfl⟩
  · exact outputKey_timeouts _ _ _ _

theorem mainSession_sameTimeout (cfg : Config) (os : OS) (challenge : List Byte) (w : World) :
    (identityStep w).2.sameTimeout (mainSession cfg os challenge w).2.tk := by
  have q2 : (identityStep w).2.sameTimeout (setSizeStep challenge w).2 :=
    SetChallenge_sameTimeout _ _
  have q3 : (identityStep w).2.sameTimeout (loadStep challenge w).2 :=
    sameTimeout_trans _ _ _ q2 (LoadChallenge_sameTimeout _ _)
  have q4 : (identityStep w).2.sameTimeout (DeriveKey (loadStep challenge w).2).2 :=
    sameTimeout_trans _ _ _ q3 (DeriveKey_sameTimeout _)
  cases h1 : (identityStep w).1 with
  | error e =>
    rw [mainSession_identity_fails cfg os challenge w e h1]
    exact sameTimeout_refl _
  | ok u1 =>
    cases h2 : (setSizeStep challenge w).1 with
    | error e =>
      rw [mainSession_setSize_fails cfg os challenge w e h1 h2]
      exact q2
    | ok u2 =>
      cases h3 : (loadStep challenge w).1 with
      | error e =>
        rw [mainSession_load_fails cfg os challenge w e h1 h2 h3]
        exact q3
      | ok u3 =>
        obtain ⟨hl, ht⟩ := mainSession_all_ok_tk cfg os challenge w h1 h2 h3
        obtain ⟨t4, m, l4⟩ := q4
        exact ⟨ht.trans t4, m, hl.trans l4⟩

theorem loadStep_ok_state (challenge : List Byte) (w : World)
    (h1 : (identityStep w).1 = .ok ()) (h2 : (setSizeStep challenge w).1 = .ok ())
    (h3 : (loadStep challenge w).1 = .ok ()) :
    (loadStep challenge w).2.readTimeout = 0 ∧
    (loadStep challenge w).2.readLog
      = w.tk.readLog ++ 2 :: List.replicate (1 + (challenge.length + 126) / 127) 0 := by
  have hw : w.tk.writeErr w.tk.written.length = false := by
    cases hw : w.tk.writeErr w.tk.written.length with
    | false => rfl
    | true =>
      have : (identityStep w).1 = .error .write := by
        unfold identityStep; rw [GetAppNameVersion_write_fails w.tk hw]
      rw [this] at h1
      cases h1
  have b := timeouts_of_exchanges w.tk 0
  have t1 : (identityStep w).2.readTimeout = 0 := by
    have := b.2.2.2.2
    rw [hw] at this
    simpa using this
  have l1 : (identityStep w).2.readLog = w.tk.readLog ++ [2] := by
    have := b.2.2.2.1
    rw [hw] at this
    simpa using this
  have hsize : 1 ≤ (challenge.length : Int) ∧ (challenge.length : Int) ≤ 256 := by
    by_contra hc
    have hinv : (challenge.length : Int) ≤ 0 ∨ (challenge.length : Int) > 256 := by omega
    have : (setSizeStep challenge w).1
        = .error (.invalidChallengeSize challenge.length maxChallengeSize) := by
      unfold setSizeStep; rw [SetChallenge_invalid _ _ hinv]
    rw [this] at h2
    cases h2
  have e2 : (setSizeStep challenge w).2
      = (identityStep w).2.exchanged (setChallengeFrame challenge.length) :=
    (SetChallenge_valid (identityStep w).2 challenge.length hsize.1 hsize.2).2.2.2 h2
  have e3 := (LoadChallenge_written (setSizeStep challenge w).2 challenge).2 h3
  have hc := chunksOf_length challenge.length challenge (Nat.le_refl _)
  have e3' : (loadStep challenge w).2 = (setSizeStep challenge w).2.exchangedMany
      ((chunksOf challenge.length challenge).map frameOfChunk) := e3.2.2
  rw [e3', e2]
  simp only [TillitisKey.exchangedMany, TillitisKey.exchanged, t1, l1, List.length_map, hc]
  refine ⟨trivial, ?_⟩
  rw [List.append_assoc, List.append_assoc, Nat.add_comm 1, List.replicate_succ]
  simp [List.replicate_succ']

/-- C9 (amended). `DeriveKey` sets no read timeout: on every exit path the read timeout when
it returns is the one in force when it was called, and its read, when its write succeeded,
is made under that same timeout.  `SetChallenge` and `LoadChallenge` behave the same way, on
every transport and for every challenge: they leave the timeout as it was and make each of
their reads under it.  Only `GetAppNameVersion` reads under a timeout of its own, 2 seconds,
and it leaves the timeout at 0 on every return after its write.  Hence in the session of
`main`, once the identity query was written, the first read is made under 2 and every later
read under 0, and the timeout is 0 when `main` ends; when `DeriveKey` is called (the three
steps before it returned success) the timeout is 0, the reads of `SetChallenge` and of every
chunk of `LoadChallenge` were made under 0, and the read of `DeriveKey` is made under 0
too. -/
theorem DeriveKey_keeps_read_timeout (tk : TillitisKey) (size : Int) (challenge : List Byte)
    (cfg : Config) (os : OS) (w : World) :
    (DeriveKey tk).2.readTimeout = tk.readTimeout ∧
    (DeriveKey tk).2.readLog
      = tk.readLog ++ (if tk.writeErr tk.written.length then [] else [tk.readTimeout]) ∧
    (SetChallenge tk size).2.readTimeout = tk.readTimeout ∧
    (GetAppNameVersion tk).2.readLog
      = tk.readLog ++ (if tk.writeErr tk.written.length then [] else [2]) ∧
    (GetAppNameVersion tk).2.readTimeout
      = (if tk.writeErr tk.written.length then tk.readTimeout else 0) ∧
    (SetChallenge tk size).2.readLog = tk.readLog ++
      (if (size ≤ 0 ∨ size > 256) ∨ tk.writeErr tk.written.length = true then []
        else [tk.readTimeout]) ∧
    (LoadChallenge tk challenge).2.readTimeout = tk.readTimeout ∧
    (∃ m, (LoadChallenge tk challenge).2.readLog
      = tk.readLog ++ List.replicate m tk.readTimeout) ∧
    (mainSession cfg os challenge w).2.tk.readTimeout
      = (if w.tk.writeErr w.tk.written.length then w.tk.readTimeout else 0) ∧
    (∃ m, (mainSession cfg os challenge w).2.tk.readLog
      = w.tk.readLog ++
          (if w.tk.writeErr w.tk.written.length then [] else 2 :: List.replicate m 0)) ∧
    ((identityStep w).1 = .ok () → (setSizeStep challenge w).1 = .ok () →
      (loadStep challenge w).1 = .ok () →
      (loadStep challenge w).2.readTimeout = 0 ∧
      (loadStep challenge w).2.readLog
        = w.tk.readLog ++ 2 :: List.replicate (1 + (challenge.length + 126) / 127) 0 ∧
      (DeriveKey (loadStep challenge w).2).2.readLog
        = (loadStep challenge w).2.readLog ++
            (if (loadStep challenge w).2.writeErr (loadStep challenge w).2.written.length
              then [] else [0]) ∧
      (DeriveKey (loadStep challenge w).2).2.readTimeout = 0) := by
  obtain ⟨b1, b2, b3, b4, b5⟩ := timeouts_of_exchanges tk size
  have hl := LoadChallenge_sameTimeout tk challenge
  have hs := mainSession_sameTimeout cfg os challenge w
  obtain ⟨-, -, -, i4, i5⟩ := timeouts_of_exchanges w.tk 0
  refine ⟨b1, b2, b3, b4, b5, SetChallenge_readLog tk size, hl.1, hl.2, ?_, ?_, ?_⟩
  · rw [hs.1]
    exact i5
  · obtain ⟨m, hm⟩ := hs.2
    refine ⟨m, ?_⟩
    rw [hm]
    have i4' : (identityStep w).2.readLog = _ := i4
    have i5' : (identityStep w).2.readTimeout = _ := i5
    rw [i4', i5']
    cases hw : w.tk.writeErr w.tk.written.length with
    | true =>
      have hfail : (identityStep w).1 = .error .write := by
        unfold identityStep; rw [GetAppNameVersion_write_fails w.tk hw]
      have hfin := mainSession_identity_fails cfg os challenge w _ hfail
      have hm2 := hm
      rw [hfin] at hm2
      simp only [List.self_eq_append_right] at hm2
      simp only [if_true, List.append_nil, List.append_assoc, List.nil_append]
      simpa using hm2.symm
    | false => simp
  · intro h1 h2 h3
    obtain ⟨t3, l3⟩ := loadStep_ok_state challenge w h1 h2 h3
    obtain ⟨d1, d2, -⟩ := timeouts_of_exchanges (loadStep challenge w).2 0
    refine ⟨t3, l3, ?_, d1.trans t3⟩
    rw [d2, t3]

/-- Witness of C9: the session for the two-chunk 200-byte challenge on a device that
accepts everything; its five reads are made under the timeouts 2, 0, 0, 0 and 0. -/
theorem DeriveKey_keeps_read_timeout_witness :
    (loadStep challenge200 world0).2.readTimeout = 0 ∧
    (loadStep challenge200 world0).2.readLog = [2, 0, 0, 0] ∧
    (DeriveKey (loadStep challenge200 world0).2).2.readLog = [2, 0, 0, 0, 0] ∧
    (DeriveKey (loadStep challenge200 world0).2).2.readTimeout = 0 := by
  have h := (DeriveKey_keeps_read_timeout okDevice 200 challenge200 cfgStdout osOK
    world0).2.2.2.2.2.2.2.2.2.2 (by decide) (by decide) (by decide)
  rw [challenge200_length] at h
  refine ⟨h.1, h.2.1, ?_, h.2.2.2⟩
  rw [h.2.2.1, h.2.1]
  rfl

end TKeyLuks
